import Mathlib

/-!
Shallow embedding of cinolib's voxelization core (`include/cinolib/voxelize.cpp`)
and of `from_hexahedra_to_general_polyhedra` (`meshes/hexmesh.h`).

Real arithmetic (C++ `double`) is modelled over `ℚ`; machine integers over
`ℕ`/`ℤ`.  The octree broad phase and the box/triangle narrow phase are external
collaborators of the core (they live outside the given sources), so the mesh
classifier is parametrised by an abstract per-voxel predicate
`boundary : ℕ → Bool` telling whether the voxel's box intersects the surface.
The `PARALLEL_FOR` loops perform disjoint writes per index and are modelled as
sequential loops in ascending index order; the shared `flood_seed` cell is
modelled with program-order last-write-wins, which the spec declares an
acceptable resolution of the benign race.
-/

namespace Cinolib

/-- The voxel classification tags (`VOXEL_UNKNOWN`, `VOXEL_BOUNDARY`,
`VOXEL_INSIDE`, `VOXEL_OUTSIDE`). -/
inductive VoxelTag where
  | VOXEL_UNKNOWN
  | VOXEL_BOUNDARY
  | VOXEL_INSIDE
  | VOXEL_OUTSIDE
deriving DecidableEq

/-- A 3D point/vector with rational coordinates (models `vec3d`). -/
structure Vec3Q where
  x : ℚ
  y : ℚ
  z : ℚ
deriving DecidableEq

/-- Axis-aligned bounding box (models `AABB`), given by min/max corners. -/
structure AABB where
  min : Vec3Q
  max : Vec3Q
deriving DecidableEq

/-- Componentwise `max - min` (`AABB::delta()`). -/
def AABB.delta (b : AABB) : Vec3Q :=
  ⟨b.max.x - b.min.x, b.max.y - b.min.y, b.max.z - b.min.z⟩

/-- Largest of the three components (`vec3d::max_entry()`). -/
def Vec3Q.max_entry (v : Vec3Q) : ℚ :=
  max v.x (max v.y v.z)

/-- Edge length `g.len = g.bbox.delta().max_entry() / max_voxels_per_side` (both variants). -/
def grid_len (box : AABB) (max_voxels_per_side : ℕ) : ℚ :=
  box.delta.max_entry / (max_voxels_per_side : ℚ)

/-- Per-axis counts `g.dim[a] = int(ceil(g.bbox.delta_a() / g.len))` (both variants). -/
def grid_dims (box : AABB) (max_voxels_per_side : ℕ) : ℤ × ℤ × ℤ :=
  (⌈box.delta.x / grid_len box max_voxels_per_side⌉,
   ⌈box.delta.y / grid_len box max_voxels_per_side⌉,
   ⌈box.delta.z / grid_len box max_voxels_per_side⌉)

/-- Allocation size `uint size = g.dim[0]*g.dim[1]*g.dim[2]` of `g.voxels`. -/
def gridSize (d : ℤ × ℤ × ℤ) : ℕ :=
  (d.1 * d.2.1 * d.2.2).toNat

/-- Modelled from the spec: `serialize_3D_index` lives in `serialize_index.h`,
which is not among the given sources; the spec fixes
`index = i·(dim_y·dim_z) + j·dim_z + k` (row-major, z fastest-varying). -/
def serialize_3D_index (i j k dy dz : ℕ) : ℕ :=
  i * (dy * dz) + j * dz + k

/-- Modelled from the spec: `deserialize_3D_index(index, dim_y, dim_z)` lives in
`serialize_index.h`, which is not among the given sources; it inverts the
row-major, z fastest-varying linear index of the spec. -/
def deserialize_3D_index (index dy dz : ℕ) : ℕ × ℕ × ℕ :=
  (index / (dy * dz), (index % (dy * dz)) / dz, index % dz)

/-- Modelled from the spec: `voxel_n6` lives in `voxel_grid.h`, which is not
among the given sources; the spec describes it as the 6-connected
face-neighbors of `(i,j,k)`, skipping neighbors that fall outside the grid
bounds on any axis. -/
def voxel_n6 (dx dy dz i j k : ℕ) : List ℕ :=
  (if i + 1 < dx then [serialize_3D_index (i + 1) j k dy dz] else []) ++
  (if 0 < i then [serialize_3D_index (i - 1) j k dy dz] else []) ++
  (if j + 1 < dy then [serialize_3D_index i (j + 1) k dy dz] else []) ++
  (if 0 < j then [serialize_3D_index i (j - 1) k dy dz] else []) ++
  (if k + 1 < dz then [serialize_3D_index i j (k + 1) dy dz] else []) ++
  (if 0 < k then [serialize_3D_index i j (k - 1) dy dz] else [])

/-- The 6-neighbors of a voxel given by its linear index
(`voxel_n6(g, deserialize_3D_index(index, dim1, dim2))` in the source). -/
def nbrsIdx (dx dy dz index : ℕ) : List ℕ :=
  let t := deserialize_3D_index index dy dz
  voxel_n6 dx dy dz t.1 t.2.1 t.2.2

/-- Reading `g.voxels[i]`.  All reads performed by the algorithm are in range;
the default value (used only out of range) is never observed. -/
def readTag (vox : List VoxelTag) (i : ℕ) : VoxelTag :=
  vox.getD i VoxelTag.VOXEL_BOUNDARY

/-- The body of the flood-fill's neighbor loop: for each neighbor in order, if
it is `VOXEL_UNKNOWN`, mark it `VOXEL_OUTSIDE` and push it on the back of the
FIFO queue. -/
def markNbrs : List VoxelTag → List ℕ → List ℕ → List VoxelTag × List ℕ
  | vox, q, [] => (vox, q)
  | vox, q, n :: ns =>
    if readTag vox n = VoxelTag.VOXEL_UNKNOWN then
      markNbrs (vox.set n VoxelTag.VOXEL_OUTSIDE) (q ++ [n]) ns
    else
      markNbrs vox q ns

/-- The indices newly marked (and pushed) by one run of the neighbor loop. -/
def newlyMarked : List VoxelTag → List ℕ → List ℕ
  | _, [] => []
  | vox, n :: ns =>
    if readTag vox n = VoxelTag.VOXEL_UNKNOWN then
      n :: newlyMarked (vox.set n VoxelTag.VOXEL_OUTSIDE) ns
    else
      newlyMarked vox ns

/-- State of the flood-fill loop: the classification buffer and the FIFO queue. -/
structure FState where
  vox : List VoxelTag
  q : List ℕ
deriving DecidableEq

/-- The flood-fill `while(!q.empty())` loop, fuel-indexed.  Each iteration pops
the front voxel and runs the neighbor loop on its 6-neighbors. -/
def floodLoop (dx dy dz : ℕ) : ℕ → FState → FState
  | 0, st => st
  | fuel + 1, st =>
    match st.q with
    | [] => st
    | index :: rest =>
      let r := markNbrs st.vox rest (nbrsIdx dx dy dz index)
      floodLoop dx dy dz fuel ⟨r.1, r.2⟩

/-- Instrumented neighbor loop, additionally accumulating the list of all
indices ever pushed on the queue. -/
def markNbrsP : List VoxelTag → List ℕ → List ℕ → List ℕ → List VoxelTag × List ℕ × List ℕ
  | vox, q, ps, [] => (vox, q, ps)
  | vox, q, ps, n :: ns =>
    if readTag vox n = VoxelTag.VOXEL_UNKNOWN then
      markNbrsP (vox.set n VoxelTag.VOXEL_OUTSIDE) (q ++ [n]) (ps ++ [n]) ns
    else
      markNbrsP vox q ps ns

/-- Instrumented flood loop: same computation as `floodLoop`, also returning
the cumulative list of enqueued indices. -/
def floodLoopP (dx dy dz : ℕ) : ℕ → FState → List ℕ → FState × List ℕ
  | 0, st, ps => (st, ps)
  | fuel + 1, st, ps =>
    match st.q with
    | [] => (st, ps)
    | index :: rest =>
      let r := markNbrsP st.vox rest ps (nbrsIdx dx dy dz index)
      floodLoopP dx dy dz fuel ⟨r.1, r.2.1⟩ r.2.2

/-- The whole flood stage (lines 84-107 of `voxelize.cpp`, given the seed):
mark the seed `VOXEL_OUTSIDE`, push it, and run the queue to exhaustion.
`vox.length + 1` units of fuel always suffice (each iteration strictly
decreases `#UNKNOWN + queue length`). -/
def floodFill (dx dy dz : ℕ) (vox : List VoxelTag) (seed : ℕ) : List VoxelTag :=
  (floodLoop dx dy dz (vox.length + 1)
    ⟨vox.set seed VoxelTag.VOXEL_OUTSIDE, [seed]⟩).vox

/-- The classification pass of the mesh variant: each voxel is written exactly
once, `VOXEL_BOUNDARY` if some surface element intersects its box, else
`VOXEL_UNKNOWN`. -/
def classifyMeshTags (boundary : ℕ → Bool) (size : ℕ) : List VoxelTag :=
  (List.range size).map fun index =>
    if boundary index then VoxelTag.VOXEL_BOUNDARY else VoxelTag.VOXEL_UNKNOWN

/-- Shell test `ijk[0]==0 || ijk[1]==0 || ijk[2]==0`: the voxel lies on the grid outer
shell faces touching the origin. -/
def onShell (dy dz index : ℕ) : Bool :=
  let t := deserialize_3D_index index dy dz
  t.1 == 0 || t.2.1 == 0 || t.2.2 == 0

/-- The `flood_seed` computation: initialised to `-1`; every non-boundary shell
voxel overwrites it with its own index (program-order last write wins). -/
def floodSeedScan (boundary : ℕ → Bool) (dy dz size : ℕ) : ℤ :=
  (List.range size).foldl
    (fun s index => if !boundary index && onShell dy dz index then (index : ℤ) else s)
    (-1)

/-- The residual pass (lines 110-116): every voxel still `VOXEL_UNKNOWN` is set
`VOXEL_INSIDE`. -/
def residualPass (vox : List VoxelTag) : List VoxelTag :=
  vox.map fun t => if t = VoxelTag.VOXEL_UNKNOWN then VoxelTag.VOXEL_INSIDE else t

/-- The `VoxelGrid` output value: bounding box, voxel edge length, per-axis
dimensions, and the classification buffer. -/
structure VoxelGrid where
  bbox : AABB
  len : ℚ
  dim : ℤ × ℤ × ℤ
  voxels : List VoxelTag
deriving DecidableEq

/-- The classification-pass output of the mesh variant, as a function of the
grid geometry. -/
def meshClassStage (boundary : ℕ → Bool) (mbbox : AABB) (max_voxels_per_side : ℕ) :
    List VoxelTag :=
  classifyMeshTags boundary (gridSize (grid_dims mbbox max_voxels_per_side))

/-- The `flood_seed` value recorded concurrently with the classification pass. -/
def meshSeed (boundary : ℕ → Bool) (mbbox : AABB) (max_voxels_per_side : ℕ) : ℤ :=
  floodSeedScan boundary (grid_dims mbbox max_voxels_per_side).2.1.toNat
    (grid_dims mbbox max_voxels_per_side).2.2.toNat
    (gridSize (grid_dims mbbox max_voxels_per_side))

/-- The buffer after the flood stage: the flood runs only under the source's
`flood_seed > 0` guard. -/
def meshFloodStage (boundary : ℕ → Bool) (mbbox : AABB) (max_voxels_per_side : ℕ) :
    List VoxelTag :=
  if 0 < meshSeed boundary mbbox max_voxels_per_side then
    floodFill (grid_dims mbbox max_voxels_per_side).1.toNat
      (grid_dims mbbox max_voxels_per_side).2.1.toNat
      (grid_dims mbbox max_voxels_per_side).2.2.toNat
      (meshClassStage boundary mbbox max_voxels_per_side)
      (meshSeed boundary mbbox max_voxels_per_side).toNat
  else meshClassStage boundary mbbox max_voxels_per_side

/-- The mesh variant of `voxelize` (lines 50-117), with the octree broad phase
plus triangle narrow phase abstracted into the per-voxel predicate `boundary`.
Grid geometry, classification pass with concurrent seed recording, the
`flood_seed > 0` guard, flood stage, and residual pass, in source order. -/
def voxelize_mesh (boundary : ℕ → Bool) (mbbox : AABB) (max_voxels_per_side : ℕ) :
    VoxelGrid :=
  { bbox := mbbox, len := grid_len mbbox max_voxels_per_side,
    dim := grid_dims mbbox max_voxels_per_side,
    voxels := residualPass (meshFloodStage boundary mbbox max_voxels_per_side) }

/-- Modelled from the spec: `voxel_corner_xyz` lives in `voxel_grid.h`, which is
not among the given sources; the spec's Voxel Box runs from
`origin + (i,j,k)·edge_length` to `origin + (i+1,j+1,k+1)·edge_length`, so the
8 corners are `origin + (i+a, j+b, k+c)·edge_length` with `a,b,c ∈ {0,1}`,
enumerated by the bits of `off ∈ [0,8)`. -/
def voxel_corner_xyz (box : AABB) (len : ℚ) (i j k off : ℕ) : Vec3Q :=
  ⟨box.min.x + ((i : ℚ) + (off % 2 : ℕ)) * len,
   box.min.y + ((j : ℚ) + (off / 2 % 2 : ℕ)) * len,
   box.min.z + ((k : ℚ) + (off / 4 % 2 : ℕ)) * len⟩

/-- The classification body of the implicit-function variant (lines 144-158):
evaluate `f` at the 8 corners, fold the strict-positive / strict-negative /
exactly-zero flags, then choose the tag. -/
def classifyVoxelF (f : Vec3Q → ℚ) (box : AABB) (len : ℚ) (i j k : ℕ) : VoxelTag :=
  let vals := (List.range 8).map fun off => f (voxel_corner_xyz box len i j k off)
  let positive := vals.any fun v => decide (0 < v)
  let negative := vals.any fun v => decide (v < 0)
  let zero := vals.any fun v => decide (v = 0)
  if positive && !negative && !zero then VoxelTag.VOXEL_OUTSIDE
  else if !positive && negative && !zero then VoxelTag.VOXEL_INSIDE
  else VoxelTag.VOXEL_BOUNDARY

/-- The implicit-function variant of `voxelize` (lines 126-160): grid geometry,
then a purely per-voxel classification pass; no flood, no residual pass. -/
def voxelize_implicit (f : Vec3Q → ℚ) (volume : AABB) (max_voxels_per_side : ℕ) :
    VoxelGrid :=
  let len := grid_len volume max_voxels_per_side
  let dim := grid_dims volume max_voxels_per_side
  let size := gridSize dim
  { bbox := volume, len := len, dim := dim,
    voxels := (List.range size).map fun index =>
      let t := deserialize_3D_index index dim.2.1.toNat dim.2.2.toNat
      classifyVoxelF f volume len t.1 t.2.1 t.2.2 }

/-- Reachability from the seed through 6-connected paths of non-boundary
voxels (the spec's characterisation of the flooded region). -/
inductive ReachNB (dx dy dz : ℕ) (boundary : ℕ → Bool) (seed : ℕ) : ℕ → Prop where
  | refl : ReachNB dx dy dz boundary seed seed
  | step {u v : ℕ} : ReachNB dx dy dz boundary seed u → v ∈ nbrsIdx dx dy dz u →
      boundary v = false → ReachNB dx dy dz boundary seed v

/-- The inductive invariant of the flood-fill loop, relative to the initial
classification `boundary` and the seed: buffer length is the grid size;
boundary voxels stay `VOXEL_BOUNDARY` and non-boundary voxels are
`VOXEL_UNKNOWN` or `VOXEL_OUTSIDE`; every `VOXEL_OUTSIDE` voxel is reachable;
queued voxels are `VOXEL_OUTSIDE` and the queue has no duplicates; every
`VOXEL_OUTSIDE` voxel with an `VOXEL_UNKNOWN` neighbor is still queued; the
seed is `VOXEL_OUTSIDE`. -/
structure FloodInv (dx dy dz : ℕ) (boundary : ℕ → Bool) (seed : ℕ) (st : FState) : Prop where
  len_eq : st.vox.length = dx * dy * dz
  tags : ∀ v, v < dx * dy * dz →
    (boundary v = true → readTag st.vox v = VoxelTag.VOXEL_BOUNDARY) ∧
    (boundary v = false → readTag st.vox v = VoxelTag.VOXEL_UNKNOWN ∨
      readTag st.vox v = VoxelTag.VOXEL_OUTSIDE)
  outReach : ∀ v, readTag st.vox v = VoxelTag.VOXEL_OUTSIDE → ReachNB dx dy dz boundary seed v
  queueOut : ∀ x ∈ st.q, readTag st.vox x = VoxelTag.VOXEL_OUTSIDE
  queueNodup : st.q.Nodup
  frontier : ∀ u v, readTag st.vox u = VoxelTag.VOXEL_OUTSIDE → v ∈ nbrsIdx dx dy dz u →
    readTag st.vox v = VoxelTag.VOXEL_UNKNOWN → u ∈ st.q
  seedOut : readTag st.vox seed = VoxelTag.VOXEL_OUTSIDE

/-- The queue-history invariant of the instrumented flood loop: all pushed
indices are `VOXEL_OUTSIDE`, no index was ever pushed twice, and the live
queue is a suffix of the push history. -/
structure QueueInv (st : FState) (ps : List ℕ) : Prop where
  pushedOut : ∀ x ∈ ps, readTag st.vox x = VoxelTag.VOXEL_OUTSIDE
  pushedNodup : ps.Nodup
  qSuffix : ∃ d, ps = d ++ st.q

/-- Number of `VOXEL_UNKNOWN` entries of a buffer (termination measure). -/
def countU (vox : List VoxelTag) : ℕ :=
  vox.countP fun t => decide (t = VoxelTag.VOXEL_UNKNOWN)

/-- Follows the spec's words, for comparison with the code: configuration
errors (resolution 0, or zero extent on the longest axis) are rejected before
any allocation; otherwise the geometry is computed. -/
def voxelize_checked_spec (volume : AABB) (max_voxels_per_side : ℕ) :
    Option (ℚ × (ℤ × ℤ × ℤ)) :=
  if max_voxels_per_side = 0 ∨ volume.delta.max_entry = 0 then none
  else some (grid_len volume max_voxels_per_side, grid_dims volume max_voxels_per_side)

/-- The static per-hexahedron face table of `hexmesh.h`. -/
def HEXA_FACES : List (List ℕ) :=
  [[0, 3, 2, 1], [1, 2, 6, 5], [4, 5, 6, 7], [3, 0, 4, 7], [0, 1, 5, 4], [2, 3, 7, 6]]

/-- Insert into an ascending-sorted list, keeping it sorted. -/
def insertSorted (a : ℕ) : List ℕ → List ℕ
  | [] => [a]
  | b :: bs => if a ≤ b then a :: b :: bs else b :: insertSorted a bs

/-- Ascending sort of a face tuple, as `sort(sorted_f.begin(), sorted_f.end())`
(insertion sort; any correct ascending sort computes the same key). -/
def sortTuple (f : List ℕ) : List ℕ :=
  f.foldr insertSorted []

/-- The vertex-id tuple of one face row of one hexahedron
(`hexa.at(base + HEXA_FACES[i][c])` for the four columns). -/
def hexFaceTuple (hexa : List ℕ) (base : ℕ) (row : List ℕ) : List ℕ :=
  row.map fun o => hexa.getD (base + o) 0

/-- Lookup of a sorted tuple in the face map (`f_map.find(sorted_f)`). -/
def lookupFace (m : List (List ℕ × ℕ)) (key : List ℕ) : Option ℕ :=
  (m.find? fun p => decide (p.1 = key)).map fun p => p.2

/-- One iteration of the inner face loop of `from_hexahedra_to_general_polyhedra`:
the accumulator carries `(f_map, faces, p_faces, p_winding)`. -/
def hexFaceStep (hexa : List ℕ) (base : ℕ)
    (acc : List (List ℕ × ℕ) × List (List ℕ) × List ℕ × List Bool) (row : List ℕ) :
    List (List ℕ × ℕ) × List (List ℕ) × List ℕ × List Bool :=
  let f := hexFaceTuple hexa base row
  let sf := sortTuple f
  match lookupFace acc.1 sf with
  | none =>
    (acc.1 ++ [(sf, acc.1.length)], acc.2.1 ++ [f], acc.2.2.1 ++ [acc.1.length],
     acc.2.2.2 ++ [true])
  | some id => (acc.1, acc.2.1, acc.2.2.1 ++ [id], acc.2.2.2 ++ [false])

/-- The four outputs of `from_hexahedra_to_general_polyhedra`. -/
structure HexOut where
  f_map : List (List ℕ × ℕ)
  faces : List (List ℕ)
  polys : List (List ℕ)
  polys_face_winding : List (List Bool)
deriving DecidableEq

/-- One iteration of the outer hexahedron loop: run the 6 face rows, then push
`p_faces` and `p_winding`. -/
def hexStep (hexa : List ℕ) (st : HexOut) (hid : ℕ) : HexOut :=
  let r := HEXA_FACES.foldl (hexFaceStep hexa (hid * 8)) (st.f_map, st.faces, [], [])
  { f_map := r.1, faces := r.2.1, polys := st.polys ++ [r.2.2.1],
    polys_face_winding := st.polys_face_winding ++ [r.2.2.2] }

/-- The function `from_hexahedra_to_general_polyhedra` (`hexmesh.h`, lines 247-297). -/
def from_hexahedra_to_general_polyhedra (hexa : List ℕ) : HexOut :=
  (List.range (hexa.length / 8)).foldl (hexStep hexa) ⟨[], [], [], []⟩

/-- The face tuples of the first `n` hexahedra, in processing order. -/
def hexTuples (hexa : List ℕ) (n : ℕ) : List (List ℕ) :=
  (List.range n).flatMap fun hid => HEXA_FACES.map (hexFaceTuple hexa (hid * 8))

/-- All 6·n face tuples of the input, in processing order. -/
def allFaceTuples (hexa : List ℕ) : List (List ℕ) :=
  hexTuples hexa (hexa.length / 8)

/-- First-occurrence flags of a key stream, given the keys seen so far. -/
def firstFlags : List (List ℕ) → List (List ℕ) → List Bool
  | _, [] => []
  | seen, key :: rest =>
    decide (key ∉ seen) :: firstFlags (if key ∈ seen then seen else seen ++ [key]) rest

/-- The keys seen after scanning a key stream (first occurrences, kept in
order of first appearance). -/
def scanKeys : List (List ℕ) → List (List ℕ) → List (List ℕ)
  | seen, [] => seen
  | seen, key :: rest => scanKeys (if key ∈ seen then seen else seen ++ [key]) rest

/-- The association list pairing each key with its position, starting at `o`
(the shape of the face map). -/
def keyIdx : List (List ℕ) → ℕ → List (List ℕ × ℕ)
  | [], _ => []
  | k :: ks, o => (k, o) :: keyIdx ks (o + 1)

/-- The unit cube `[0,1]³`, used as a concrete bounding volume. -/
def unitBox : AABB :=
  ⟨⟨0, 0, 0⟩, ⟨1, 1, 1⟩⟩

/-- The face-map invariant of `from_hexahedra_to_general_polyhedra`: the map
associates the sorted key of each stored face with its index, and distinct
stored faces have distinct keys. -/
def FMapInv (m : List (List ℕ × ℕ)) (faces : List (List ℕ)) : Prop :=
  m = keyIdx (faces.map sortTuple) 0 ∧ (faces.map sortTuple).Nodup

/-- Claim C10's winding sentence, as written: the flag of face slot `s` of
polyhedron `h` is true exactly when no earlier polyhedron contains that face
id. -/
def windingClaim (out : HexOut) : Prop :=
  ∀ h, h < out.polys.length → ∀ s, s < 6 →
    (((out.polys_face_winding.getD h []).getD s false = true) ↔
      ∀ h2, h2 < h → (out.polys.getD h []).getD s 0 ∉ out.polys.getD h2 [])

/-! ## Helper lemmas -/

theorem ceil_mul_self_le (e : ℚ) {len : ℚ} (hlen : 0 < len) : e ≤ (⌈e / len⌉ : ℚ) * len := by
  have h1 : e / len ≤ (⌈e / len⌉ : ℚ) := Int.le_ceil _
  have h2 : e / len * len ≤ (⌈e / len⌉ : ℚ) * len :=
    mul_le_mul_of_nonneg_right h1 (le_of_lt hlen)
  rwa [div_mul_cancel₀ e (ne_of_gt hlen)] at h2

theorem readTag_map_range (g : ℕ → VoxelTag) (n v : ℕ) (hv : v < n) :
    readTag ((List.range n).map g) v = g v := by
  rw [readTag, List.getD_eq_getElem?_getD, List.getElem?_map, List.getElem?_range hv]
  rfl

/-! ## Claim C3: grid geometry -/

/-- Claim C3: for a non-degenerate bounding volume and resolution `R ≥ 1`,
both variants set `edge_length = max extent / R` and per-axis
`dim = ceil(extent / edge_length)`; the edge length is positive and uniform,
and on every axis `dim · edge_length ≥ extent`, so the covered volume
(starting at the box min corner) contains the bounding volume. -/
theorem grid_geometry_spec (boundary : ℕ → Bool) (f : Vec3Q → ℚ) (box : AABB) (R : ℕ)
    (hR : 1 ≤ R) (hbox : 0 < box.delta.max_entry) :
    grid_len box R = box.delta.max_entry / (R : ℚ) ∧
    0 < grid_len box R ∧
    grid_dims box R =
      (⌈box.delta.x / grid_len box R⌉, ⌈box.delta.y / grid_len box R⌉,
       ⌈box.delta.z / grid_len box R⌉) ∧
    (voxelize_mesh boundary box R).len = grid_len box R ∧
    (voxelize_mesh boundary box R).dim = grid_dims box R ∧
    (voxelize_implicit f box R).len = grid_len box R ∧
    (voxelize_implicit f box R).dim = grid_dims box R ∧
    box.delta.x ≤ ((grid_dims box R).1 : ℚ) * grid_len box R ∧
    box.delta.y ≤ ((grid_dims box R).2.1 : ℚ) * grid_len box R ∧
    box.delta.z ≤ ((grid_dims box R).2.2 : ℚ) * grid_len box R ∧
    box.max.x ≤ box.min.x + ((grid_dims box R).1 : ℚ) * grid_len box R ∧
    box.max.y ≤ box.min.y + ((grid_dims box R).2.1 : ℚ) * grid_len box R ∧
    box.max.z ≤ box.min.z + ((grid_dims box R).2.2 : ℚ) * grid_len box R := by
  have hRQ : (0 : ℚ) < (R : ℚ) := by
    exact_mod_cast Nat.lt_of_lt_of_le Nat.zero_lt_one hR
  have hlen : 0 < grid_len box R := div_pos hbox hRQ
  have hx := ceil_mul_self_le box.delta.x hlen
  have hy := ceil_mul_self_le box.delta.y hlen
  have hz := ceil_mul_self_le box.delta.z hlen
  have d1 : (grid_dims box R).1 = ⌈box.delta.x / grid_len box R⌉ := rfl
  have d2 : (grid_dims box R).2.1 = ⌈box.delta.y / grid_len box R⌉ := rfl
  have d3 : (grid_dims box R).2.2 = ⌈box.delta.z / grid_len box R⌉ := rfl
  refine ⟨rfl, hlen, rfl, rfl, rfl, rfl, rfl, hx, hy, hz, ?_, ?_, ?_⟩
  · have hdx : box.delta.x = box.max.x - box.min.x := rfl
    rw [d1]; linarith [hx, hdx]
  · have hdy : box.delta.y = box.max.y - box.min.y := rfl
    rw [d2]; linarith [hy, hdy]
  · have hdz : box.delta.z = box.max.z - box.min.z := rfl
    rw [d3]; linarith [hz, hdz]

/-- Witness for `grid_geometry_spec` at the unit cube and `R = 2`. -/
theorem grid_geometry_spec_witness :
    1 ≤ 2 ∧ (0 : ℚ) < unitBox.delta.max_entry ∧
      unitBox.delta.x ≤ ((grid_dims unitBox 2).1 : ℚ) * grid_len unitBox 2 := by
  have hbox : (0 : ℚ) < unitBox.delta.max_entry := by
    norm_num [unitBox, AABB.delta, Vec3Q.max_entry]
  exact ⟨by norm_num, hbox,
    (grid_geometry_spec (fun _ => false) (fun _ => 0) unitBox 2 (by norm_num) hbox).2.2.2.2.2.2.2.1⟩

/-! ## Claim C5: linear index bijection -/

/-- Claim C5: `index = i·(dim_y·dim_z) + j·dim_z + k` is a bijection between
in-range triples and `[0, dim_x·dim_y·dim_z)`: decode∘encode is the identity on
valid triples, encode lands in range, and encode∘decode is the identity on the
index range with in-range decoded components. -/
theorem serialize_deserialize_bijection (dx dy dz i j k n : ℕ)
    (hi : i < dx) (hj : j < dy) (hk : k < dz) (hn : n < dx * dy * dz) :
    deserialize_3D_index (serialize_3D_index i j k dy dz) dy dz = (i, j, k) ∧
    serialize_3D_index i j k dy dz < dx * dy * dz ∧
    (deserialize_3D_index n dy dz).1 < dx ∧
    (deserialize_3D_index n dy dz).2.1 < dy ∧
    (deserialize_3D_index n dy dz).2.2 < dz ∧
    serialize_3D_index (deserialize_3D_index n dy dz).1
      (deserialize_3D_index n dy dz).2.1 (deserialize_3D_index n dy dz).2.2 dy dz = n := by
  have hdy : 0 < dy := by omega
  have hdz : 0 < dz := by omega
  have hm : 0 < dy * dz := Nat.mul_pos hdy hdz
  have hr : j * dz + k < dy * dz := by
    have h1 : j * dz + k < (j + 1) * dz := by rw [Nat.succ_mul]; omega
    have h2 : (j + 1) * dz ≤ dy * dz := Nat.mul_le_mul_right dz hj
    omega
  constructor
  · show (_, _, _) = (i, j, k)
    have e1 : i * (dy * dz) + j * dz + k = dy * dz * i + (j * dz + k) := by ring
    have e2 : i * (dy * dz) + j * dz + k = dz * (i * dy + j) + k := by ring
    refine Prod.ext ?_ (Prod.ext ?_ ?_)
    · show (i * (dy * dz) + j * dz + k) / (dy * dz) = i
      rw [e1, Nat.mul_add_div hm, Nat.div_eq_of_lt hr, Nat.add_zero]
    · show ((i * (dy * dz) + j * dz + k) % (dy * dz)) / dz = j
      rw [e1, Nat.mul_add_mod, Nat.mod_eq_of_lt hr]
      have e3 : j * dz + k = dz * j + k := by ring
      rw [e3, Nat.mul_add_div hdz, Nat.div_eq_of_lt hk, Nat.add_zero]
    · show (i * (dy * dz) + j * dz + k) % dz = k
      rw [e2, Nat.mul_add_mod, Nat.mod_eq_of_lt hk]
  refine ⟨?_, ?_, ?_, ?_, ?_⟩
  · show i * (dy * dz) + j * dz + k < dx * dy * dz
    have h1 : i * (dy * dz) + (j * dz + k) < (i + 1) * (dy * dz) := by
      rw [Nat.succ_mul]; omega
    have h2 : (i + 1) * (dy * dz) ≤ dx * (dy * dz) := Nat.mul_le_mul_right _ hi
    have h3 : dx * (dy * dz) = dx * dy * dz := by ring
    omega
  · show n / (dy * dz) < dx
    rw [Nat.div_lt_iff_lt_mul hm]
    have h3 : dx * (dy * dz) = dx * dy * dz := by ring
    omega
  · show (n % (dy * dz)) / dz < dy
    rw [Nat.div_lt_iff_lt_mul hdz]
    have := Nat.mod_lt n hm
    omega
  · exact Nat.mod_lt n hdz
  · show n / (dy * dz) * (dy * dz) + (n % (dy * dz)) / dz * dz + n % dz = n
    have hd : dz ∣ dy * dz := ⟨dy, by ring⟩
    have e4 : n % dz = n % (dy * dz) % dz := (Nat.mod_mod_of_dvd n hd).symm
    have h5 := Nat.div_add_mod (n % (dy * dz)) dz
    have h6 := Nat.div_add_mod n (dy * dz)
    have c1 : dz * (n % (dy * dz) / dz) = n % (dy * dz) / dz * dz := by ring
    have c2 : dy * dz * (n / (dy * dz)) = n / (dy * dz) * (dy * dz) := by ring
    rw [c1] at h5
    rw [c2] at h6
    omega

/-- Witness for `serialize_deserialize_bijection` at dims `(2,3,4)`,
triple `(1,2,3)`, index `5`. -/
theorem serialize_deserialize_bijection_witness :
    deserialize_3D_index (serialize_3D_index 1 2 3 3 4) 3 4 = (1, 2, 3) ∧
    serialize_3D_index (deserialize_3D_index 5 3 4).1 (deserialize_3D_index 5 3 4).2.1
      (deserialize_3D_index 5 3 4).2.2 3 4 = 5 := by
  have h := serialize_deserialize_bijection 2 3 4 1 2 3 5
    (by decide) (by decide) (by decide) (by decide)
  exact ⟨h.1, h.2.2.2.2.2⟩

/-! ## Claim C2: configuration errors -/

theorem voxelize_mesh_resolution_zero (boundary : ℕ → Bool) (box : AABB) :
    grid_len box 0 = 0 ∧ grid_dims box 0 = (0, 0, 0) ∧
    (voxelize_mesh boundary box 0).dim = (0, 0, 0) ∧
    (voxelize_mesh boundary box 0).voxels = [] := by
  have hlen : grid_len box 0 = 0 := by
    simp [grid_len]
  have hdim : grid_dims box 0 = (0, 0, 0) := by
    simp [grid_dims, hlen]
  refine ⟨hlen, hdim, ?_, ?_⟩
  · simp [voxelize_mesh, hdim]
  · simp [voxelize_mesh, meshFloodStage, meshSeed, meshClassStage, hdim, gridSize,
      classifyMeshTags, floodSeedScan, residualPass]

/-- Claim C2 counterexample: at resolution `R = 0` (unit-cube volume) the
spec-side checked variant rejects the call, but the code reports nothing and
runs to completion, producing a grid value — with all per-axis counts `0` and
an empty (zero-length) classification buffer — instead of aborting. -/
theorem config_errors_not_rejected_cex :
    voxelize_checked_spec unitBox 0 = none ∧
    (voxelize_mesh (fun _ => false) unitBox 0).dim = (0, 0, 0) ∧
    (voxelize_mesh (fun _ => false) unitBox 0).voxels = [] := by
  refine ⟨?_, (voxelize_mesh_resolution_zero (fun _ => false) unitBox).2.2⟩
  simp [voxelize_checked_spec]

/-- Claim C2 amended: `voxelize` performs no configuration validation and has
no error channel: called with resolution `R = 0` it reports nothing and runs
to completion for every bounding volume and every classifier, returning a grid
whose per-axis counts are all `0` and whose classification buffer is the empty
(zero-length) allocation.  (With a degenerate volume the division `0/0` is
likewise unguarded in the source; no error is reported there either.) -/
theorem config_errors_not_rejected (boundary : ℕ → Bool) (f : Vec3Q → ℚ) (box : AABB) :
    (voxelize_mesh boundary box 0).dim = (0, 0, 0) ∧
    (voxelize_mesh boundary box 0).voxels = [] ∧
    (voxelize_implicit f box 0).dim = (0, 0, 0) ∧
    (voxelize_implicit f box 0).voxels = [] := by
  have h := voxelize_mesh_resolution_zero boundary box
  refine ⟨h.2.2.1, h.2.2.2, ?_, ?_⟩
  · simp [voxelize_implicit, h.2.1]
  · simp [voxelize_implicit, h.2.1, gridSize]

/-! ## Claim C1: the flood-fill seed guard -/

/-- Claim C1 (code bug evaluation): on a 1×1×1 grid whose only voxel is
non-boundary, that voxel (index 0) lies on the outer shell and is recorded as
the flood seed, yet the `flood_seed > 0` guard (the sentinel is `-1`) skips
the flood stage, and the voxel falls through to the residual pass as
`VOXEL_INSIDE` instead of being flooded `VOXEL_OUTSIDE`. -/
theorem flood_skipped_when_seed_is_voxel_zero :
    onShell 1 1 0 = true ∧
    floodSeedScan (fun _ => false) 1 1 1 = 0 ∧
    ¬ (0 : ℤ) < floodSeedScan (fun _ => false) 1 1 1 ∧
    (voxelize_mesh (fun _ => false) unitBox 1).dim = (1, 1, 1) ∧
    (voxelize_mesh (fun _ => false) unitBox 1).voxels = [VoxelTag.VOXEL_INSIDE] := by
  have hlen : grid_len unitBox 1 = 1 := by
    norm_num [grid_len, unitBox, AABB.delta, Vec3Q.max_entry]
  have hdim : grid_dims unitBox 1 = (1, 1, 1) := by
    simp only [grid_dims, hlen]
    norm_num [unitBox, AABB.delta]
  refine ⟨by decide, by decide, by decide, ?_, ?_⟩
  · simp [voxelize_mesh, hdim]
  · simp only [voxelize_mesh, meshFloodStage, meshSeed, meshClassStage, hdim]
    decide

/-! ## Claim C4: implicit-function classification -/

theorem any_corner_iff (f : Vec3Q → ℚ) (box : AABB) (len : ℚ) (i j k : ℕ) (p : ℚ → Bool) :
    (((List.range 8).map fun off => f (voxel_corner_xyz box len i j k off)).any p = true) ↔
      ∃ off, off < 8 ∧ p (f (voxel_corner_xyz box len i j k off)) = true := by
  simp [List.any_map, List.any_eq_true, List.mem_range, Function.comp]

theorem classifyVoxelF_eq (f : Vec3Q → ℚ) (box : AABB) (len : ℚ) (i j k : ℕ) :
    classifyVoxelF f box len i j k =
      (if (((List.range 8).map fun off => f (voxel_corner_xyz box len i j k off)).any
              fun v => decide (0 < v)) &&
          !(((List.range 8).map fun off => f (voxel_corner_xyz box len i j k off)).any
              fun v => decide (v < 0)) &&
          !(((List.range 8).map fun off => f (voxel_corner_xyz box len i j k off)).any
              fun v => decide (v = 0)) then VoxelTag.VOXEL_OUTSIDE
       else if !(((List.range 8).map fun off => f (voxel_corner_xyz box len i j k off)).any
              fun v => decide (0 < v)) &&
          (((List.range 8).map fun off => f (voxel_corner_xyz box len i j k off)).any
              fun v => decide (v < 0)) &&
          !(((List.range 8).map fun off => f (voxel_corner_xyz box len i j k off)).any
              fun v => decide (v = 0)) then VoxelTag.VOXEL_INSIDE
       else VoxelTag.VOXEL_BOUNDARY) := rfl

theorem classifyVoxelF_cases (f : Vec3Q → ℚ) (box : AABB) (len : ℚ) (i j k : ℕ) :
    (classifyVoxelF f box len i j k = VoxelTag.VOXEL_OUTSIDE ↔
      ∀ off, off < 8 → 0 < f (voxel_corner_xyz box len i j k off)) ∧
    (classifyVoxelF f box len i j k = VoxelTag.VOXEL_INSIDE ↔
      ∀ off, off < 8 → f (voxel_corner_xyz box len i j k off) < 0) ∧
    (classifyVoxelF f box len i j k = VoxelTag.VOXEL_BOUNDARY ↔
      (((∃ off, off < 8 ∧ 0 < f (voxel_corner_xyz box len i j k off)) ∧
        (∃ off, off < 8 ∧ f (voxel_corner_xyz box len i j k off) < 0)) ∨
       (∃ off, off < 8 ∧ f (voxel_corner_xyz box len i j k off) = 0))) ∧
    classifyVoxelF f box len i j k ≠ VoxelTag.VOXEL_UNKNOWN := by
  have hp := any_corner_iff f box len i j k fun v => decide (0 < v)
  have hn := any_corner_iff f box len i j k fun v => decide (v < 0)
  have hz := any_corner_iff f box len i j k fun v => decide (v = 0)
  simp only [decide_eq_true_iff] at hp hn hz
  have hallp : (∀ off, off < 8 → 0 < f (voxel_corner_xyz box len i j k off)) ↔
      ((∃ off, off < 8 ∧ 0 < f (voxel_corner_xyz box len i j k off)) ∧
       ¬ (∃ off, off < 8 ∧ f (voxel_corner_xyz box len i j k off) < 0) ∧
       ¬ (∃ off, off < 8 ∧ f (voxel_corner_xyz box len i j k off) = 0)) := by
    constructor
    · intro h
      refine ⟨⟨0, by norm_num, h 0 (by norm_num)⟩, ?_, ?_⟩
      · rintro ⟨o, ho, hlt⟩; exact absurd (h o ho) (by linarith)
      · rintro ⟨o, ho, he⟩; exact absurd (h o ho) (by rw [he]; exact lt_irrefl 0)
    · rintro ⟨_, hnn, hnz⟩ o ho
      rcases lt_trichotomy (f (voxel_corner_xyz box len i j k o)) 0 with h | h | h
      · exact absurd ⟨o, ho, h⟩ hnn
      · exact absurd ⟨o, ho, h⟩ hnz
      · exact h
  have halln : (∀ off, off < 8 → f (voxel_corner_xyz box len i j k off) < 0) ↔
      (¬ (∃ off, off < 8 ∧ 0 < f (voxel_corner_xyz box len i j k off)) ∧
       (∃ off, off < 8 ∧ f (voxel_corner_xyz box len i j k off) < 0) ∧
       ¬ (∃ off, off < 8 ∧ f (voxel_corner_xyz box len i j k off) = 0)) := by
    constructor
    · intro h
      refine ⟨?_, ⟨0, by norm_num, h 0 (by norm_num)⟩, ?_⟩
      · rintro ⟨o, ho, hlt⟩; exact absurd (h o ho) (by linarith)
      · rintro ⟨o, ho, he⟩; exact absurd (h o ho) (by rw [he]; exact lt_irrefl 0)
    · rintro ⟨hnp, _, hnz⟩ o ho
      rcases lt_trichotomy (f (voxel_corner_xyz box len i j k o)) 0 with h | h | h
      · exact h
      · exact absurd ⟨o, ho, h⟩ hnz
      · exact absurd ⟨o, ho, h⟩ hnp
  rw [classifyVoxelF_eq]
  split_ifs with h1 h2
  · rw [Bool.and_eq_true, Bool.and_eq_true, Bool.not_eq_true', Bool.not_eq_true'] at h1
    obtain ⟨⟨hpt, hnf⟩, hzf⟩ := h1
    have hP := hp.mp hpt
    have hN : ¬ ∃ off, off < 8 ∧ f (voxel_corner_xyz box len i j k off) < 0 := by
      intro hc; exact absurd (hn.mpr hc) (by rw [hnf]; exact Bool.false_ne_true)
    have hZ : ¬ ∃ off, off < 8 ∧ f (voxel_corner_xyz box len i j k off) = 0 := by
      intro hc; exact absurd (hz.mpr hc) (by rw [hzf]; exact Bool.false_ne_true)
    refine ⟨by simp [hallp, hP, hN, hZ], by simp [halln, hP], ?_, by simp⟩
    simp only [show VoxelTag.VOXEL_OUTSIDE ≠ VoxelTag.VOXEL_BOUNDARY from by decide,
      false_iff]
    rintro (⟨_, hc⟩ | hc)
    · exact hN hc
    · exact hZ hc
  · rw [Bool.and_eq_true, Bool.and_eq_true, Bool.not_eq_true', Bool.not_eq_true'] at h2
    obtain ⟨⟨hpf, hnt⟩, hzf⟩ := h2
    have hN := hn.mp hnt
    have hP : ¬ ∃ off, off < 8 ∧ 0 < f (voxel_corner_xyz box len i j k off) := by
      intro hc; exact absurd (hp.mpr hc) (by rw [hpf]; exact Bool.false_ne_true)
    have hZ : ¬ ∃ off, off < 8 ∧ f (voxel_corner_xyz box len i j k off) = 0 := by
      intro hc; exact absurd (hz.mpr hc) (by rw [hzf]; exact Bool.false_ne_true)
    refine ⟨by simp [hallp, hP], by simp [halln, hP, hN, hZ], ?_, by simp⟩
    simp only [show VoxelTag.VOXEL_INSIDE ≠ VoxelTag.VOXEL_BOUNDARY from by decide,
      false_iff]
    rintro (⟨hc, _⟩ | hc)
    · exact hP hc
    · exact hZ hc
  · have hnallp : ¬ ∀ off, off < 8 → 0 < f (voxel_corner_xyz box len i j k off) := by
      intro hc
      obtain ⟨hP, hN, hZ⟩ := hallp.mp hc
      apply h1
      rw [Bool.and_eq_true, Bool.and_eq_true, Bool.not_eq_true', Bool.not_eq_true']
      refine ⟨⟨hp.mpr hP, ?_⟩, ?_⟩
      · rcases hb : ((List.range 8).map fun off =>
            f (voxel_corner_xyz box len i j k off)).any fun v => decide (v < 0) with _ | _
        · rfl
        · exact absurd (hn.mp hb) hN
      · rcases hb : ((List.range 8).map fun off =>
            f (voxel_corner_xyz box len i j k off)).any fun v => decide (v = 0) with _ | _
        · rfl
        · exact absurd (hz.mp hb) hZ
    have hnalln : ¬ ∀ off, off < 8 → f (voxel_corner_xyz box len i j k off) < 0 := by
      intro hc
      obtain ⟨hP, hN, hZ⟩ := halln.mp hc
      apply h2
      rw [Bool.and_eq_true, Bool.and_eq_true, Bool.not_eq_true', Bool.not_eq_true']
      refine ⟨⟨?_, hn.mpr hN⟩, ?_⟩
      · rcases hb : ((List.range 8).map fun off =>
            f (voxel_corner_xyz box len i j k off)).any fun v => decide (0 < v) with _ | _
        · rfl
        · exact absurd (hp.mp hb) hP
      · rcases hb : ((List.range 8).map fun off =>
            f (voxel_corner_xyz box len i j k off)).any fun v => decide (v = 0) with _ | _
        · rfl
        · exact absurd (hz.mp hb) hZ
    refine ⟨by simp [hnallp], by simp [hnalln], ?_, by simp⟩
    simp only [true_iff]
    rcases hzb : ((List.range 8).map fun off =>
        f (voxel_corner_xyz box len i j k off)).any fun v => decide (v = 0) with _ | _
    · left
      rcases lt_trichotomy (f (voxel_corner_xyz box len i j k 0)) 0 with h0 | h0 | h0
      · have hN : ∃ off, off < 8 ∧ f (voxel_corner_xyz box len i j k off) < 0 :=
          ⟨0, by norm_num, h0⟩
        have hP : ∃ off, off < 8 ∧ 0 < f (voxel_corner_xyz box len i j k off) := by
          by_contra hc
          apply h2
          rw [Bool.and_eq_true, Bool.and_eq_true, Bool.not_eq_true', Bool.not_eq_true']
          refine ⟨⟨?_, hn.mpr hN⟩, hzb⟩
          rcases hb : ((List.range 8).map fun off =>
              f (voxel_corner_xyz box len i j k off)).any fun v => decide (0 < v) with _ | _
          · rfl
          · exact absurd (hp.mp hb) hc
        exact ⟨hP, hN⟩
      · exact absurd (hz.mpr ⟨0, by norm_num, h0⟩) (by rw [hzb]; exact Bool.false_ne_true)
      · have hP : ∃ off, off < 8 ∧ 0 < f (voxel_corner_xyz box len i j k off) :=
          ⟨0, by norm_num, h0⟩
        have hN : ∃ off, off < 8 ∧ f (voxel_corner_xyz box len i j k off) < 0 := by
          by_contra hc
          apply h1
          rw [Bool.and_eq_true, Bool.and_eq_true, Bool.not_eq_true', Bool.not_eq_true']
          refine ⟨⟨hp.mpr hP, ?_⟩, hzb⟩
          rcases hb : ((List.range 8).map fun off =>
              f (voxel_corner_xyz box len i j k off)).any fun v => decide (v < 0) with _ | _
          · rfl
          · exact absurd (hn.mp hb) hc
        exact ⟨hP, hN⟩
    · exact Or.inr (hz.mp hzb)

/-- Claim C4: in the implicit-function variant every voxel's tag is computed by
evaluating `f` at its 8 corners: `VOXEL_OUTSIDE` iff all evaluations are
strictly positive, `VOXEL_INSIDE` iff all are strictly negative,
`VOXEL_BOUNDARY` iff the signs are mixed or some evaluation is exactly zero,
and no voxel is left `VOXEL_UNKNOWN`. -/
theorem implicit_classification_rule (f : Vec3Q → ℚ) (volume : AABB) (R : ℕ)
    (box : AABB) (len : ℚ) (i j k v : ℕ) (hv : v < gridSize (grid_dims volume R)) :
    readTag (voxelize_implicit f volume R).voxels v =
      classifyVoxelF f volume (grid_len volume R)
        (deserialize_3D_index v (grid_dims volume R).2.1.toNat (grid_dims volume R).2.2.toNat).1
        (deserialize_3D_index v (grid_dims volume R).2.1.toNat (grid_dims volume R).2.2.toNat).2.1
        (deserialize_3D_index v (grid_dims volume R).2.1.toNat (grid_dims volume R).2.2.toNat).2.2 ∧
    (classifyVoxelF f box len i j k = VoxelTag.VOXEL_OUTSIDE ↔
      ∀ off, off < 8 → 0 < f (voxel_corner_xyz box len i j k off)) ∧
    (classifyVoxelF f box len i j k = VoxelTag.VOXEL_INSIDE ↔
      ∀ off, off < 8 → f (voxel_corner_xyz box len i j k off) < 0) ∧
    (classifyVoxelF f box len i j k = VoxelTag.VOXEL_BOUNDARY ↔
      (((∃ off, off < 8 ∧ 0 < f (voxel_corner_xyz box len i j k off)) ∧
        (∃ off, off < 8 ∧ f (voxel_corner_xyz box len i j k off) < 0)) ∨
       (∃ off, off < 8 ∧ f (voxel_corner_xyz box len i j k off) = 0))) ∧
    classifyVoxelF f box len i j k ≠ VoxelTag.VOXEL_UNKNOWN := by
  refine ⟨?_, classifyVoxelF_cases f box len i j k⟩
  exact readTag_map_range _ _ v hv

/-- Witness for `implicit_classification_rule`: the constant function `1` on
the unit cube at resolution 1, voxel 0. -/
theorem implicit_classification_rule_witness :
    0 < gridSize (grid_dims unitBox 1) ∧
    classifyVoxelF (fun _ => (1 : ℚ)) unitBox 1 0 0 0 ≠ VoxelTag.VOXEL_UNKNOWN := by
  have hlen : grid_len unitBox 1 = 1 := by
    norm_num [grid_len, unitBox, AABB.delta, Vec3Q.max_entry]
  have hdim : grid_dims unitBox 1 = (1, 1, 1) := by
    simp only [grid_dims, hlen]
    norm_num [unitBox, AABB.delta]
  have hv : 0 < gridSize (grid_dims unitBox 1) := by rw [hdim]; decide
  exact ⟨hv, (implicit_classification_rule (fun _ => (1 : ℚ)) unitBox 1 unitBox 1
    0 0 0 0 hv).2.2.2.2⟩

/-! ## Flood-fill machinery -/

theorem readTag_lt_length {vox : List VoxelTag} {n : ℕ}
    (h : readTag vox n ≠ VoxelTag.VOXEL_BOUNDARY) : n < vox.length := by
  by_contra hn
  apply h
  rw [readTag, List.getD_eq_getElem?_getD, List.getElem?_eq_none (by omega)]
  rfl

theorem readTag_set_self {vox : List VoxelTag} {n : ℕ} (t : VoxelTag)
    (h : n < vox.length) : readTag (vox.set n t) n = t := by
  rw [readTag, List.getD_eq_getElem?_getD, List.getElem?_set_self (by simpa using h)]
  rfl

theorem readTag_set_ne {vox : List VoxelTag} {m n : ℕ} (t : VoxelTag)
    (h : m ≠ n) : readTag (vox.set n t) m = readTag vox m := by
  rw [readTag, readTag, List.getD_eq_getElem?_getD, List.getD_eq_getElem?_getD,
    List.getElem?_set_ne (by omega)]

theorem markNbrs_length (ns : List ℕ) : ∀ (vox : List VoxelTag) (q : List ℕ),
    (markNbrs vox q ns).1.length = vox.length := by
  induction ns with
  | nil => intro vox q; rfl
  | cons n ns ih =>
    intro vox q
    rw [markNbrs]
    split_ifs with h
    · rw [ih]; exact List.length_set vox n _
    · exact ih vox q

theorem markNbrs_readTag (ns : List ℕ) : ∀ (vox : List VoxelTag) (q : List ℕ) (v : ℕ),
    readTag (markNbrs vox q ns).1 v =
      if v ∈ ns ∧ readTag vox v = VoxelTag.VOXEL_UNKNOWN then VoxelTag.VOXEL_OUTSIDE
      else readTag vox v := by
  induction ns with
  | nil =>
    intro vox q v
    simp [markNbrs]
  | cons n ns ih =>
    intro vox q v
    rw [markNbrs]
    by_cases h : readTag vox n = VoxelTag.VOXEL_UNKNOWN
    · rw [if_pos h, ih]
      have hlt : n < vox.length := readTag_lt_length (by rw [h]; decide)
      by_cases hv : v = n
      · subst hv
        rw [readTag_set_self _ hlt]
        rw [if_neg (by rintro ⟨_, hcon⟩; exact absurd hcon (by decide)),
          if_pos ⟨List.mem_cons_self v ns, h⟩]
      · rw [readTag_set_ne _ hv]
        simp only [List.mem_cons, eq_false hv, false_or]
    · rw [if_neg h, ih]
      by_cases hv : v = n
      · subst hv
        rw [if_neg (fun hc => h hc.2), if_neg (fun hc => h hc.2)]
      · simp only [List.mem_cons, eq_false hv, false_or]

theorem markNbrs_queue (ns : List ℕ) : ∀ (vox : List VoxelTag) (q : List ℕ),
    (markNbrs vox q ns).2 = q ++ newlyMarked vox ns := by
  induction ns with
  | nil => intro vox q; simp [markNbrs, newlyMarked]
  | cons n ns ih =>
    intro vox q
    rw [markNbrs, newlyMarked]
    split_ifs with h
    · rw [ih]; simp
    · exact ih vox q

theorem newlyMarked_sub (ns : List ℕ) : ∀ (vox : List VoxelTag) (x : ℕ),
    x ∈ newlyMarked vox ns → x ∈ ns ∧ readTag vox x = VoxelTag.VOXEL_UNKNOWN := by
  induction ns with
  | nil => intro vox x hx; simp [newlyMarked] at hx
  | cons n ns ih =>
    intro vox x hx
    rw [newlyMarked] at hx
    split_ifs at hx with h
    · rcases List.mem_cons.mp hx with he | hm
      · subst he; exact ⟨List.mem_cons_self _ _, h⟩
      · obtain ⟨hmem, hu⟩ := ih _ _ hm
        by_cases hv : x = n
        · subst hv; exact ⟨List.mem_cons_self _ _, h⟩
        · rw [readTag_set_ne _ hv] at hu
          exact ⟨List.mem_cons_of_mem n hmem, hu⟩
    · obtain ⟨hmem, hu⟩ := ih _ _ hx
      exact ⟨List.mem_cons_of_mem n hmem, hu⟩

theorem newlyMarked_mem (ns : List ℕ) : ∀ (vox : List VoxelTag) (x : ℕ),
    x ∈ ns → readTag vox x = VoxelTag.VOXEL_UNKNOWN → x ∈ newlyMarked vox ns := by
  induction ns with
  | nil => intro vox x hx; simp at hx
  | cons n ns ih =>
    intro vox x hx hu
    rw [newlyMarked]
    split_ifs with h
    · by_cases hv : x = n
      · subst hv; exact List.mem_cons_self _ _
      · refine List.mem_cons_of_mem n (ih _ x ?_ ?_)
        · rcases List.mem_cons.mp hx with he | hm
          · exact absurd he hv
          · exact hm
        · rw [readTag_set_ne _ hv]; exact hu
    · rcases List.mem_cons.mp hx with he | hm
      · subst he; exact absurd hu h
      · exact ih _ x hm hu

theorem newlyMarked_nodup (ns : List ℕ) : ∀ (vox : List VoxelTag),
    (newlyMarked vox ns).Nodup := by
  induction ns with
  | nil => intro vox; simp [newlyMarked]
  | cons n ns ih =>
    intro vox
    rw [newlyMarked]
    split_ifs with h
    · refine List.Nodup.cons ?_ (ih _)
      intro hmem
      have := (newlyMarked_sub ns _ n hmem).2
      rw [readTag_set_self _ (readTag_lt_length (by rw [h]; decide))] at this
      exact absurd this (by decide)
    · exact ih vox

theorem countU_set {vox : List VoxelTag} {n : ℕ} (hlt : n < vox.length)
    (hu : readTag vox n = VoxelTag.VOXEL_UNKNOWN) :
    countU (vox.set n VoxelTag.VOXEL_OUTSIDE) + 1 = countU vox := by
  induction vox generalizing n with
  | nil => simp at hlt
  | cons t ts ih =>
    cases n with
    | zero =>
      have ht : t = VoxelTag.VOXEL_UNKNOWN := by
        rw [readTag, List.getD_eq_getElem?_getD] at hu
        simpa using hu
      subst ht
      simp [countU, List.countP_cons]
    | succ m =>
      have hm : m < ts.length := by simpa using hlt
      have hu2 : readTag ts m = VoxelTag.VOXEL_UNKNOWN := by
        rw [readTag, List.getD_eq_getElem?_getD] at hu ⊢
        simpa using hu
      have := ih hm hu2
      simp only [List.set, countU, List.countP_cons] at this ⊢
      omega

theorem markNbrs_measure (ns : List ℕ) : ∀ (vox : List VoxelTag) (q : List ℕ),
    countU (markNbrs vox q ns).1 + (markNbrs vox q ns).2.length =
      countU vox + q.length := by
  induction ns with
  | nil => intro vox q; rfl
  | cons n ns ih =>
    intro vox q
    rw [markNbrs]
    split_ifs with h
    · rw [ih]
      have := countU_set (readTag_lt_length (by rw [h]; decide)) h
      simp only [List.length_append, List.length_cons, List.length_nil]
      omega
    · exact ih vox q

theorem serialize_lt_size {dx dy dz i j k : ℕ} (hi : i < dx) (hj : j < dy) (hk : k < dz) :
    serialize_3D_index i j k dy dz < dx * dy * dz := by
  show i * (dy * dz) + j * dz + k < dx * dy * dz
  have h1 : j * dz + k < (j + 1) * dz := by rw [Nat.succ_mul]; omega
  have h2 : (j + 1) * dz ≤ dy * dz := Nat.mul_le_mul_right dz hj
  have h3 : i * (dy * dz) + (j * dz + k) < (i + 1) * (dy * dz) := by
    rw [Nat.succ_mul]; omega
  have h4 : (i + 1) * (dy * dz) ≤ dx * (dy * dz) := Nat.mul_le_mul_right _ hi
  have h5 : dx * (dy * dz) = dx * dy * dz := by ring
  omega

theorem deserialize_lt (dx : ℕ) {dy dz n : ℕ} (hn : n < dx * dy * dz) :
    (deserialize_3D_index n dy dz).1 < dx ∧ (deserialize_3D_index n dy dz).2.1 < dy ∧
      (deserialize_3D_index n dy dz).2.2 < dz := by
  have hdx : 0 < dx := by
    rcases Nat.eq_zero_or_pos dx with h | h
    · subst h; simp at hn
    · exact h
  have hdy : 0 < dy := by
    by_contra hc
    push_neg at hc
    have : dy = 0 := by omega
    subst this
    simp at hn
  have hdz : 0 < dz := by
    by_contra hc
    push_neg at hc
    have : dz = 0 := by omega
    subst this
    simp at hn
  have hm : 0 < dy * dz := Nat.mul_pos hdy hdz
  refine ⟨?_, ?_, Nat.mod_lt n hdz⟩
  · show n / (dy * dz) < dx
    rw [Nat.div_lt_iff_lt_mul hm]
    have h3 : dx * (dy * dz) = dx * dy * dz := by ring
    omega
  · show (n % (dy * dz)) / dz < dy
    rw [Nat.div_lt_iff_lt_mul hdz]
    have := Nat.mod_lt n hm
    omega

theorem voxel_n6_in_range {dx dy dz i j k : ℕ} (hi : i < dx) (hj : j < dy) (hk : k < dz) :
    ∀ x ∈ voxel_n6 dx dy dz i j k, x < dx * dy * dz := by
  intro x hx
  rw [voxel_n6] at hx
  simp only [List.mem_append] at hx
  rcases hx with ((((h1 | h2) | h3) | h4) | h5) | h6
  · split_ifs at h1 with hc
    · rw [List.mem_singleton] at h1; subst h1; exact serialize_lt_size hc hj hk
    · simp at h1
  · split_ifs at h2 with hc
    · rw [List.mem_singleton] at h2; subst h2; exact serialize_lt_size (by omega) hj hk
    · simp at h2
  · split_ifs at h3 with hc
    · rw [List.mem_singleton] at h3; subst h3; exact serialize_lt_size hi hc hk
    · simp at h3
  · split_ifs at h4 with hc
    · rw [List.mem_singleton] at h4; subst h4; exact serialize_lt_size hi (by omega) hk
    · simp at h4
  · split_ifs at h5 with hc
    · rw [List.mem_singleton] at h5; subst h5; exact serialize_lt_size hi hj hc
    · simp at h5
  · split_ifs at h6 with hc
    · rw [List.mem_singleton] at h6; subst h6; exact serialize_lt_size hi hj (by omega)
    · simp at h6

theorem nbrsIdx_in_range {dx dy dz u : ℕ} (hu : u < dx * dy * dz) :
    ∀ x ∈ nbrsIdx dx dy dz u, x < dx * dy * dz := by
  obtain ⟨h1, h2, h3⟩ := deserialize_lt dx hu
  exact voxel_n6_in_range h1 h2 h3

theorem floodLoop_nil (dx dy dz fuel : ℕ) (vox : List VoxelTag) :
    floodLoop dx dy dz (fuel + 1) ⟨vox, []⟩ = ⟨vox, []⟩ := rfl

theorem floodLoop_cons (dx dy dz fuel index : ℕ) (rest : List ℕ) (vox : List VoxelTag) :
    floodLoop dx dy dz (fuel + 1) ⟨vox, index :: rest⟩ =
      floodLoop dx dy dz fuel ⟨(markNbrs vox rest (nbrsIdx dx dy dz index)).1,
        (markNbrs vox rest (nbrsIdx dx dy dz index)).2⟩ := rfl

theorem floodLoop_length (dx dy dz : ℕ) (fuel : ℕ) : ∀ st : FState,
    (floodLoop dx dy dz fuel st).vox.length = st.vox.length := by
  induction fuel with
  | zero => intro st; rfl
  | succ fuel ih =>
    rintro ⟨vox, q⟩
    cases q with
    | nil => rw [floodLoop_nil]
    | cons index rest =>
      rw [floodLoop_cons, ih]
      exact markNbrs_length _ _ _

theorem floodLoop_tag_mono (dx dy dz : ℕ) (fuel : ℕ) : ∀ (st : FState) (v : ℕ),
    readTag (floodLoop dx dy dz fuel st).vox v = readTag st.vox v ∨
      (readTag st.vox v = VoxelTag.VOXEL_UNKNOWN ∧
       readTag (floodLoop dx dy dz fuel st).vox v = VoxelTag.VOXEL_OUTSIDE) := by
  induction fuel with
  | zero => intro st v; exact Or.inl rfl
  | succ fuel ih =>
    rintro ⟨vox, q⟩ v
    cases q with
    | nil => exact Or.inl rfl
    | cons index rest =>
      rw [floodLoop_cons]
      have hstep := markNbrs_readTag (nbrsIdx dx dy dz index) vox rest v
      have ih2 :
          readTag (floodLoop dx dy dz fuel
            ⟨(markNbrs vox rest (nbrsIdx dx dy dz index)).1,
             (markNbrs vox rest (nbrsIdx dx dy dz index)).2⟩).vox v =
            readTag (markNbrs vox rest (nbrsIdx dx dy dz index)).1 v ∨
          (readTag (markNbrs vox rest (nbrsIdx dx dy dz index)).1 v =
              VoxelTag.VOXEL_UNKNOWN ∧
           readTag (floodLoop dx dy dz fuel
            ⟨(markNbrs vox rest (nbrsIdx dx dy dz index)).1,
             (markNbrs vox rest (nbrsIdx dx dy dz index)).2⟩).vox v =
              VoxelTag.VOXEL_OUTSIDE) := ih _ v
      show readTag (floodLoop dx dy dz fuel
          ⟨(markNbrs vox rest (nbrsIdx dx dy dz index)).1,
           (markNbrs vox rest (nbrsIdx dx dy dz index)).2⟩).vox v = readTag vox v ∨
        (readTag vox v = VoxelTag.VOXEL_UNKNOWN ∧
         readTag (floodLoop dx dy dz fuel
          ⟨(markNbrs vox rest (nbrsIdx dx dy dz index)).1,
           (markNbrs vox rest (nbrsIdx dx dy dz index)).2⟩).vox v = VoxelTag.VOXEL_OUTSIDE)
      rcases ih2 with h | ⟨hu, ho⟩
      · rw [h, hstep]
        split_ifs with hc
        · exact Or.inr ⟨hc.2, rfl⟩
        · exact Or.inl rfl
      · rw [hstep] at hu
        split_ifs at hu with hc
        exact Or.inr ⟨hu, ho⟩

theorem floodLoop_terminates (dx dy dz : ℕ) (fuel : ℕ) : ∀ st : FState,
    countU st.vox + st.q.length ≤ fuel → (floodLoop dx dy dz fuel st).q = [] := by
  induction fuel with
  | zero =>
    intro st h
    have hq : st.q = [] := List.length_eq_zero.mp (by omega)
    obtain ⟨vox, q⟩ := st
    subst hq
    rfl
  | succ fuel ih =>
    rintro ⟨vox, q⟩ h
    cases q with
    | nil => rw [floodLoop_nil]
    | cons index rest =>
      rw [floodLoop_cons]
      apply ih
      show countU (markNbrs vox rest (nbrsIdx dx dy dz index)).1 +
        (markNbrs vox rest (nbrsIdx dx dy dz index)).2.length ≤ fuel
      have := markNbrs_measure (nbrsIdx dx dy dz index) vox rest
      simp only [List.length_cons] at h
      omega

theorem readTag_of_ge {vox : List VoxelTag} {n : ℕ} (h : vox.length ≤ n) :
    readTag vox n = VoxelTag.VOXEL_BOUNDARY := by
  rw [readTag, List.getD_eq_getElem?_getD, List.getElem?_eq_none h]
  rfl

theorem floodStep_inv (dx dy dz : ℕ) (boundary : ℕ → Bool) (seed : ℕ)
    (vox : List VoxelTag) (index : ℕ) (rest : List ℕ)
    (inv : FloodInv dx dy dz boundary seed ⟨vox, index :: rest⟩) :
    FloodInv dx dy dz boundary seed
      ⟨(markNbrs vox rest (nbrsIdx dx dy dz index)).1,
       (markNbrs vox rest (nbrsIdx dx dy dz index)).2⟩ := by
  have hidxO : readTag vox index = VoxelTag.VOXEL_OUTSIDE :=
    inv.queueOut index (List.mem_cons_self index rest)
  have hidxlt : index < vox.length := readTag_lt_length (by rw [hidxO]; decide)
  have hsize : vox.length = dx * dy * dz := inv.len_eq
  have hidxsz : index < dx * dy * dz := by omega
  have hrange : ∀ x ∈ nbrsIdx dx dy dz index, x < dx * dy * dz := nbrsIdx_in_range hidxsz
  refine ⟨?_, ?_, ?_, ?_, ?_, ?_, ?_⟩
  · show (markNbrs vox rest (nbrsIdx dx dy dz index)).1.length = dx * dy * dz
    rw [markNbrs_length]; exact hsize
  · intro v hv
    have ht := markNbrs_readTag (nbrsIdx dx dy dz index) vox rest v
    obtain ⟨h1, h2⟩ := inv.tags v hv
    constructor
    · intro hb
      show readTag (markNbrs vox rest (nbrsIdx dx dy dz index)).1 v = _
      rw [ht, if_neg]
      · exact h1 hb
      · rintro ⟨_, hu⟩; rw [h1 hb] at hu; exact absurd hu (by decide)
    · intro hb
      show readTag (markNbrs vox rest (nbrsIdx dx dy dz index)).1 v = _ ∨
        readTag (markNbrs vox rest (nbrsIdx dx dy dz index)).1 v = _
      rw [ht]
      split_ifs with hc
      · exact Or.inr rfl
      · exact h2 hb
  · intro v hOut
    replace hOut : readTag (markNbrs vox rest (nbrsIdx dx dy dz index)).1 v =
      VoxelTag.VOXEL_OUTSIDE := hOut
    rw [markNbrs_readTag] at hOut
    split_ifs at hOut with hc
    · have hvsz : v < dx * dy * dz := hrange v hc.1
      cases hbv : boundary v with
      | false => exact ReachNB.step (inv.outReach index hidxO) hc.1 hbv
      | true =>
        have := (inv.tags v hvsz).1 hbv
        rw [this] at hc
        exact absurd hc.2 (by decide)
    · exact inv.outReach v hOut
  · intro x hx
    replace hx : x ∈ (markNbrs vox rest (nbrsIdx dx dy dz index)).2 := hx
    rw [markNbrs_queue] at hx
    show readTag (markNbrs vox rest (nbrsIdx dx dy dz index)).1 x = _
    rcases List.mem_append.mp hx with hr | hm
    · have hold : readTag vox x = VoxelTag.VOXEL_OUTSIDE :=
        inv.queueOut x (List.mem_cons_of_mem index hr)
      rw [markNbrs_readTag, if_neg]
      · exact hold
      · rintro ⟨_, hu⟩; rw [hold] at hu; exact absurd hu (by decide)
    · obtain ⟨hmem, hu⟩ := newlyMarked_sub _ _ _ hm
      rw [markNbrs_readTag, if_pos ⟨hmem, hu⟩]
  · show (markNbrs vox rest (nbrsIdx dx dy dz index)).2.Nodup
    rw [markNbrs_queue]
    refine List.Nodup.append (List.Nodup.of_cons inv.queueNodup) (newlyMarked_nodup _ _) ?_
    intro a har hanm
    have hO : readTag vox a = VoxelTag.VOXEL_OUTSIDE :=
      inv.queueOut a (List.mem_cons_of_mem index har)
    have hU := (newlyMarked_sub _ _ _ hanm).2
    rw [hO] at hU
    exact absurd hU (by decide)
  · intro u v huO hv hvU
    replace huO : readTag (markNbrs vox rest (nbrsIdx dx dy dz index)).1 u =
      VoxelTag.VOXEL_OUTSIDE := huO
    replace hvU : readTag (markNbrs vox rest (nbrsIdx dx dy dz index)).1 v =
      VoxelTag.VOXEL_UNKNOWN := hvU
    show u ∈ (markNbrs vox rest (nbrsIdx dx dy dz index)).2
    rw [markNbrs_readTag] at hvU
    split_ifs at hvU with hcv
    have hvns : v ∉ nbrsIdx dx dy dz index := fun hmem => hcv ⟨hmem, hvU⟩
    rw [markNbrs_readTag] at huO
    rw [markNbrs_queue]
    split_ifs at huO with hcu
    · exact List.mem_append_right rest (newlyMarked_mem _ _ _ hcu.1 hcu.2)
    · rcases List.mem_cons.mp (inv.frontier u v huO hv hvU) with he | hr
      · subst he; exact absurd hv hvns
      · exact List.mem_append_left _ hr
  · show readTag (markNbrs vox rest (nbrsIdx dx dy dz index)).1 seed = _
    rw [markNbrs_readTag, if_neg]
    · exact inv.seedOut
    · rintro ⟨_, hu⟩; rw [inv.seedOut] at hu; exact absurd hu (by decide)

theorem floodLoop_inv (dx dy dz : ℕ) (boundary : ℕ → Bool) (seed : ℕ) (fuel : ℕ) :
    ∀ st : FState, FloodInv dx dy dz boundary seed st →
      FloodInv dx dy dz boundary seed (floodLoop dx dy dz fuel st) := by
  induction fuel with
  | zero => intro st inv; exact inv
  | succ fuel ih =>
    rintro ⟨vox, q⟩ inv
    cases q with
    | nil => rw [floodLoop_nil]; exact inv
    | cons index rest =>
      rw [floodLoop_cons]
      exact ih _ (floodStep_inv dx dy dz boundary seed vox index rest inv)

theorem floodInv_final (dx dy dz : ℕ) (boundary : ℕ → Bool) (seed : ℕ) (st : FState)
    (inv : FloodInv dx dy dz boundary seed st) (hq : st.q = []) :
    ∀ v, readTag st.vox v = VoxelTag.VOXEL_OUTSIDE ↔ ReachNB dx dy dz boundary seed v := by
  intro v
  constructor
  · exact inv.outReach v
  · intro hr
    induction hr with
    | refl => exact inv.seedOut
    | @step u w hu hmem hb ih =>
      have hult : u < dx * dy * dz := by
        have h1 : u < st.vox.length := readTag_lt_length (by rw [ih]; decide)
        have h2 := inv.len_eq
        omega
      have hwlt : w < dx * dy * dz := nbrsIdx_in_range hult w hmem
      rcases (inv.tags w hwlt).2 hb with hU | hO
      · have := inv.frontier u w ih hmem hU
        rw [hq] at this
        simp at this
      · exact hO

theorem floodInit_inv (dx dy dz : ℕ) (boundary : ℕ → Bool) (seed : ℕ) (vox0 : List VoxelTag)
    (hlen : vox0.length = dx * dy * dz)
    (htags : ∀ v, v < dx * dy * dz → readTag vox0 v =
      (if boundary v then VoxelTag.VOXEL_BOUNDARY else VoxelTag.VOXEL_UNKNOWN))
    (hseed : seed < dx * dy * dz) (hB : boundary seed = false) :
    FloodInv dx dy dz boundary seed ⟨vox0.set seed VoxelTag.VOXEL_OUTSIDE, [seed]⟩ := by
  have hseedlen : seed < vox0.length := by omega
  have hsetseed : readTag (vox0.set seed VoxelTag.VOXEL_OUTSIDE) seed =
    VoxelTag.VOXEL_OUTSIDE := readTag_set_self _ hseedlen
  have honlyseed : ∀ v, v ≠ seed →
      readTag (vox0.set seed VoxelTag.VOXEL_OUTSIDE) v ≠ VoxelTag.VOXEL_OUTSIDE := by
    intro v hne hO
    rw [readTag_set_ne _ hne] at hO
    by_cases hvlt : v < dx * dy * dz
    · rw [htags v hvlt] at hO
      split_ifs at hO
    · rw [readTag_of_ge (by omega)] at hO
      exact absurd hO (by decide)
  refine ⟨?_, ?_, ?_, ?_, ?_, ?_, hsetseed⟩
  · show (vox0.set seed VoxelTag.VOXEL_OUTSIDE).length = dx * dy * dz
    rw [List.length_set]; exact hlen
  · intro v hv
    by_cases hveq : v = seed
    · subst hveq
      refine ⟨fun hb => ?_, fun _ => Or.inr hsetseed⟩
      rw [hB] at hb
      exact absurd hb (by decide)
    · show (boundary v = true → readTag (vox0.set seed VoxelTag.VOXEL_OUTSIDE) v = _) ∧ _
      rw [readTag_set_ne _ hveq, htags v hv]
      constructor
      · intro hb; rw [if_pos hb]
      · intro hb
        rw [if_neg (by rw [hb]; decide)]
        exact Or.inl rfl
  · intro v hO
    by_cases hveq : v = seed
    · subst hveq; exact ReachNB.refl
    · exact absurd hO (honlyseed v hveq)
  · intro x hx
    rw [List.mem_singleton] at hx
    subst hx
    exact hsetseed
  · exact List.nodup_singleton seed
  · intro u v huO hmem hvU
    by_cases hueq : u = seed
    · subst hueq; exact List.mem_singleton.mpr rfl
    · exact absurd huO (honlyseed u hueq)

/-- Claim C6: when the flood stage runs from a non-boundary seed over the
classification output, on termination the set of `VOXEL_OUTSIDE` voxels is
exactly the set reachable from the seed through 6-connected paths of
non-boundary voxels; no voxel the classification pass tagged `VOXEL_BOUNDARY`
is retagged; and every 6-neighbor produced (and hence ever visited) is inside
the grid bounds. -/
theorem flood_fill_exact (dx dy dz : ℕ) (boundary : ℕ → Bool) (vox0 : List VoxelTag)
    (seed : ℕ) (hlen : vox0.length = dx * dy * dz)
    (htags : ∀ v, v < dx * dy * dz → readTag vox0 v =
      (if boundary v then VoxelTag.VOXEL_BOUNDARY else VoxelTag.VOXEL_UNKNOWN))
    (hseed : seed < dx * dy * dz) (hB : boundary seed = false) :
    (∀ v, readTag (floodFill dx dy dz vox0 seed) v = VoxelTag.VOXEL_OUTSIDE ↔
      ReachNB dx dy dz boundary seed v) ∧
    (∀ v, v < dx * dy * dz → boundary v = true →
      readTag (floodFill dx dy dz vox0 seed) v = VoxelTag.VOXEL_BOUNDARY) ∧
    (∀ u, u < dx * dy * dz → ∀ x ∈ nbrsIdx dx dy dz u, x < dx * dy * dz) := by
  have inv0 := floodInit_inv dx dy dz boundary seed vox0 hlen htags hseed hB
  have invF := floodLoop_inv dx dy dz boundary seed (vox0.length + 1) _ inv0
  have hterm : (floodLoop dx dy dz (vox0.length + 1)
      ⟨vox0.set seed VoxelTag.VOXEL_OUTSIDE, [seed]⟩).q = [] := by
    apply floodLoop_terminates
    show countU (vox0.set seed VoxelTag.VOXEL_OUTSIDE) + [seed].length ≤ vox0.length + 1
    have h1 : countU (vox0.set seed VoxelTag.VOXEL_OUTSIDE) ≤
        (vox0.set seed VoxelTag.VOXEL_OUTSIDE).length := List.countP_le_length _
    rw [List.length_set] at h1
    simp only [List.length_singleton]
    omega
  refine ⟨?_, ?_, fun u hu => nbrsIdx_in_range hu⟩
  · exact floodInv_final dx dy dz boundary seed _ invF hterm
  · intro v hv hb
    exact (invF.tags v hv).1 hb

/-- Witness for `flood_fill_exact`: a 1×1×2 grid with no boundary voxels,
flooded from voxel 0. -/
theorem flood_fill_exact_witness :
    readTag (floodFill 1 1 2 [VoxelTag.VOXEL_UNKNOWN, VoxelTag.VOXEL_UNKNOWN] 0) 1 =
        VoxelTag.VOXEL_OUTSIDE ↔
      ReachNB 1 1 2 (fun _ => false) 0 1 :=
  (flood_fill_exact 1 1 2 (fun _ => false)
    [VoxelTag.VOXEL_UNKNOWN, VoxelTag.VOXEL_UNKNOWN] 0 (by decide)
    (by intro v hv; interval_cases v <;> rfl) (by decide) rfl).1 1

theorem markNbrsP_eq (ns : List ℕ) : ∀ (vox : List VoxelTag) (q ps : List ℕ),
    markNbrsP vox q ps ns =
      ((markNbrs vox q ns).1, (markNbrs vox q ns).2, ps ++ newlyMarked vox ns) := by
  induction ns with
  | nil => intro vox q ps; simp [markNbrsP, markNbrs, newlyMarked]
  | cons n ns ih =>
    intro vox q ps
    rw [markNbrsP, markNbrs, newlyMarked]
    split_ifs with h
    · rw [ih]; simp
    · exact ih vox q ps

theorem floodLoopP_nil (dx dy dz fuel : ℕ) (vox : List VoxelTag) (ps : List ℕ) :
    floodLoopP dx dy dz (fuel + 1) ⟨vox, []⟩ ps = (⟨vox, []⟩, ps) := rfl

theorem floodLoopP_cons (dx dy dz fuel index : ℕ) (rest : List ℕ) (vox : List VoxelTag)
    (ps : List ℕ) :
    floodLoopP dx dy dz (fuel + 1) ⟨vox, index :: rest⟩ ps =
      floodLoopP dx dy dz fuel
        ⟨(markNbrs vox rest (nbrsIdx dx dy dz index)).1,
         (markNbrs vox rest (nbrsIdx dx dy dz index)).2⟩
        (ps ++ newlyMarked vox (nbrsIdx dx dy dz index)) := by
  show floodLoopP dx dy dz fuel
      ⟨(markNbrsP vox rest ps (nbrsIdx dx dy dz index)).1,
       (markNbrsP vox rest ps (nbrsIdx dx dy dz index)).2.1⟩
      (markNbrsP vox rest ps (nbrsIdx dx dy dz index)).2.2 = _
  rw [markNbrsP_eq]

theorem floodLoopP_fst (dx dy dz : ℕ) (fuel : ℕ) : ∀ (st : FState) (ps : List ℕ),
    (floodLoopP dx dy dz fuel st ps).1 = floodLoop dx dy dz fuel st := by
  induction fuel with
  | zero => intro st ps; rfl
  | succ fuel ih =>
    rintro ⟨vox, q⟩ ps
    cases q with
    | nil => rw [floodLoopP_nil, floodLoop_nil]
    | cons index rest => rw [floodLoopP_cons, floodLoop_cons, ih]

theorem queueStep_inv (dx dy dz : ℕ) (vox : List VoxelTag) (index : ℕ) (rest ps : List ℕ)
    (qinv : QueueInv ⟨vox, index :: rest⟩ ps) :
    QueueInv ⟨(markNbrs vox rest (nbrsIdx dx dy dz index)).1,
        (markNbrs vox rest (nbrsIdx dx dy dz index)).2⟩
      (ps ++ newlyMarked vox (nbrsIdx dx dy dz index)) := by
  refine ⟨?_, ?_, ?_⟩
  · intro x hx
    show readTag (markNbrs vox rest (nbrsIdx dx dy dz index)).1 x = _
    rcases List.mem_append.mp hx with hp | hm
    · have hold : readTag vox x = VoxelTag.VOXEL_OUTSIDE := qinv.pushedOut x hp
      rw [markNbrs_readTag, if_neg]
      · exact hold
      · rintro ⟨_, hu⟩; rw [hold] at hu; exact absurd hu (by decide)
    · obtain ⟨hmem, hu⟩ := newlyMarked_sub _ _ _ hm
      rw [markNbrs_readTag, if_pos ⟨hmem, hu⟩]
  · refine List.Nodup.append qinv.pushedNodup (newlyMarked_nodup _ _) ?_
    intro a hap hanm
    have hO := qinv.pushedOut a hap
    have hU := (newlyMarked_sub _ _ _ hanm).2
    rw [hO] at hU
    exact absurd hU (by decide)
  · obtain ⟨d, hd⟩ := qinv.qSuffix
    refine ⟨d ++ [index], ?_⟩
    show ps ++ newlyMarked vox (nbrsIdx dx dy dz index) =
      (d ++ [index]) ++ ((markNbrs vox rest (nbrsIdx dx dy dz index)).2)
    rw [markNbrs_queue, hd]
    show d ++ (⟨vox, index :: rest⟩ : FState).q ++ _ = _
    simp

theorem floodLoopP_inv (dx dy dz : ℕ) (fuel : ℕ) : ∀ (st : FState) (ps : List ℕ),
    QueueInv st ps →
      QueueInv (floodLoopP dx dy dz fuel st ps).1 (floodLoopP dx dy dz fuel st ps).2 := by
  induction fuel with
  | zero => intro st ps qinv; exact qinv
  | succ fuel ih =>
    rintro ⟨vox, q⟩ ps qinv
    cases q with
    | nil => rw [floodLoopP_nil]; exact qinv
    | cons index rest =>
      rw [floodLoopP_cons]
      exact ih _ _ (queueStep_inv dx dy dz vox index rest ps qinv)

/-- Claim C8: during the flood, the cumulative list of enqueued indices never
repeats an index (each voxel is enqueued at most once, having been marked
`VOXEL_OUTSIDE` before being pushed), hence the FIFO queue — a suffix of that
history — never holds the same index twice; every queued index (in particular
every popped front) is tagged `VOXEL_OUTSIDE`; and the instrumented loop
computes exactly the real flood loop. -/
theorem flood_queue_invariant (dx dy dz : ℕ) (vox0 : List VoxelTag) (seed n : ℕ)
    (hseed : seed < vox0.length) :
    (floodLoopP dx dy dz n ⟨vox0.set seed VoxelTag.VOXEL_OUTSIDE, [seed]⟩ [seed]).1 =
      floodLoop dx dy dz n ⟨vox0.set seed VoxelTag.VOXEL_OUTSIDE, [seed]⟩ ∧
    (floodLoopP dx dy dz n ⟨vox0.set seed VoxelTag.VOXEL_OUTSIDE, [seed]⟩ [seed]).2.Nodup ∧
    (floodLoopP dx dy dz n
      ⟨vox0.set seed VoxelTag.VOXEL_OUTSIDE, [seed]⟩ [seed]).1.q.Nodup ∧
    (∀ x ∈ (floodLoopP dx dy dz n ⟨vox0.set seed VoxelTag.VOXEL_OUTSIDE, [seed]⟩ [seed]).1.q,
      readTag (floodLoopP dx dy dz n
        ⟨vox0.set seed VoxelTag.VOXEL_OUTSIDE, [seed]⟩ [seed]).1.vox x =
        VoxelTag.VOXEL_OUTSIDE) ∧
    (∀ index rest,
      (floodLoopP dx dy dz n ⟨vox0.set seed VoxelTag.VOXEL_OUTSIDE, [seed]⟩ [seed]).1.q =
        index :: rest →
      readTag (floodLoopP dx dy dz n
        ⟨vox0.set seed VoxelTag.VOXEL_OUTSIDE, [seed]⟩ [seed]).1.vox index =
        VoxelTag.VOXEL_OUTSIDE) := by
  have hinit : QueueInv ⟨vox0.set seed VoxelTag.VOXEL_OUTSIDE, [seed]⟩ [seed] := by
    refine ⟨?_, List.nodup_singleton seed, ⟨[], rfl⟩⟩
    intro x hx
    rw [List.mem_singleton] at hx
    subst hx
    exact readTag_set_self _ hseed
  have hinv := floodLoopP_inv dx dy dz n _ _ hinit
  have hmemq : ∀ x ∈ (floodLoopP dx dy dz n
      ⟨vox0.set seed VoxelTag.VOXEL_OUTSIDE, [seed]⟩ [seed]).1.q,
      readTag (floodLoopP dx dy dz n
        ⟨vox0.set seed VoxelTag.VOXEL_OUTSIDE, [seed]⟩ [seed]).1.vox x =
        VoxelTag.VOXEL_OUTSIDE := by
    intro x hx
    obtain ⟨d, hd⟩ := hinv.qSuffix
    exact hinv.pushedOut x (by rw [hd]; exact List.mem_append_right d hx)
  refine ⟨floodLoopP_fst dx dy dz n _ _, hinv.pushedNodup, ?_, hmemq, ?_⟩
  · obtain ⟨d, hd⟩ := hinv.qSuffix
    have := hinv.pushedNodup
    rw [hd] at this
    exact this.of_append_right
  · intro index rest hq
    exact hmemq index (by rw [hq]; exact List.mem_cons_self index rest)

/-- Witness for `flood_queue_invariant`: the 1×1×2 grid flood after one
iteration. -/
theorem flood_queue_invariant_witness :
    (floodLoopP 1 1 2 1
      ⟨[VoxelTag.VOXEL_UNKNOWN, VoxelTag.VOXEL_UNKNOWN].set 0 VoxelTag.VOXEL_OUTSIDE,
       [0]⟩ [0]).2.Nodup :=
  (flood_queue_invariant 1 1 2 [VoxelTag.VOXEL_UNKNOWN, VoxelTag.VOXEL_UNKNOWN] 0 1
    (by decide)).2.1

theorem floodFill_length (dx dy dz : ℕ) (vox : List VoxelTag) (seed : ℕ) :
    (floodFill dx dy dz vox seed).length = vox.length := by
  show (floodLoop dx dy dz (vox.length + 1)
    ⟨vox.set seed VoxelTag.VOXEL_OUTSIDE, [seed]⟩).vox.length = vox.length
  rw [floodLoop_length]
  exact List.length_set vox seed _

theorem classifyMeshTags_length (boundary : ℕ → Bool) (size : ℕ) :
    (classifyMeshTags boundary size).length = size := by
  simp [classifyMeshTags]

theorem meshFloodStage_length (boundary : ℕ → Bool) (box : AABB) (R : ℕ) :
    (meshFloodStage boundary box R).length = gridSize (grid_dims box R) := by
  rw [meshFloodStage]
  split_ifs with h
  · rw [floodFill_length, meshClassStage, classifyMeshTags_length]
  · rw [meshClassStage, classifyMeshTags_length]

theorem residualPass_no_unknown (w : List VoxelTag) :
    ∀ t ∈ residualPass w, t ≠ VoxelTag.VOXEL_UNKNOWN ∧
      (t = VoxelTag.VOXEL_BOUNDARY ∨ t = VoxelTag.VOXEL_INSIDE ∨
       t = VoxelTag.VOXEL_OUTSIDE) := by
  intro t ht
  rw [residualPass, List.mem_map] at ht
  obtain ⟨s, _, hs⟩ := ht
  subst hs
  cases s <;> simp

theorem classifyVoxelF_ne_unknown (f : Vec3Q → ℚ) (box : AABB) (len : ℚ) (i j k : ℕ) :
    classifyVoxelF f box len i j k ≠ VoxelTag.VOXEL_UNKNOWN ∧
      (classifyVoxelF f box len i j k = VoxelTag.VOXEL_BOUNDARY ∨
       classifyVoxelF f box len i j k = VoxelTag.VOXEL_INSIDE ∨
       classifyVoxelF f box len i j k = VoxelTag.VOXEL_OUTSIDE) := by
  rw [classifyVoxelF_eq]
  split_ifs <;> simp

/-- Claim C7: after either `voxelize` variant completes, the classification
buffer holds exactly `dim_x·dim_y·dim_z` entries and every voxel carries one of
`VOXEL_BOUNDARY`, `VOXEL_INSIDE`, `VOXEL_OUTSIDE` — none remains
`VOXEL_UNKNOWN` (in the mesh variant the residual pass promotes every
remaining `VOXEL_UNKNOWN` voxel to `VOXEL_INSIDE`). -/
theorem voxelize_no_unknown (boundary : ℕ → Bool) (f : Vec3Q → ℚ) (box : AABB) (R : ℕ) :
    (voxelize_mesh boundary box R).voxels.length = gridSize (grid_dims box R) ∧
    (∀ t ∈ (voxelize_mesh boundary box R).voxels, t ≠ VoxelTag.VOXEL_UNKNOWN ∧
      (t = VoxelTag.VOXEL_BOUNDARY ∨ t = VoxelTag.VOXEL_INSIDE ∨
       t = VoxelTag.VOXEL_OUTSIDE)) ∧
    (voxelize_implicit f box R).voxels.length = gridSize (grid_dims box R) ∧
    (∀ t ∈ (voxelize_implicit f box R).voxels, t ≠ VoxelTag.VOXEL_UNKNOWN ∧
      (t = VoxelTag.VOXEL_BOUNDARY ∨ t = VoxelTag.VOXEL_INSIDE ∨
       t = VoxelTag.VOXEL_OUTSIDE)) := by
  refine ⟨?_, ?_, ?_, ?_⟩
  · show (residualPass (meshFloodStage boundary box R)).length = _
    rw [residualPass, List.length_map, meshFloodStage_length]
  · exact residualPass_no_unknown _
  · show ((List.range (gridSize (grid_dims box R))).map _).length = _
    rw [List.length_map, List.length_range]
  · intro t ht
    replace ht : t ∈ (List.range (gridSize (grid_dims box R))).map _ := ht
    rw [List.mem_map] at ht
    obtain ⟨s, _, hs⟩ := ht
    subst hs
    exact classifyVoxelF_ne_unknown f box _ _ _ _

theorem residualPass_readTag (w : List VoxelTag) (v : ℕ) :
    readTag (residualPass w) v =
      (if readTag w v = VoxelTag.VOXEL_UNKNOWN then VoxelTag.VOXEL_INSIDE
       else readTag w v) := by
  rw [residualPass, readTag, readTag, List.getD_eq_getElem?_getD, List.getD_eq_getElem?_getD,
    List.getElem?_map]
  cases h : w[v]? with
  | none => rfl
  | some s => rfl

theorem foldSeed_invariant (boundary : ℕ → Bool) (dy dz size : ℕ) :
    ∀ (l : List ℕ) (acc : ℤ), (∀ x ∈ l, x < size) →
      (acc = -1 ∨ (0 ≤ acc ∧ acc.toNat < size ∧ boundary acc.toNat = false ∧
        onShell dy dz acc.toNat = true)) →
      (l.foldl (fun s index =>
          if !boundary index && onShell dy dz index then (index : ℤ) else s) acc = -1 ∨
       (0 ≤ l.foldl (fun s index =>
          if !boundary index && onShell dy dz index then (index : ℤ) else s) acc ∧
        (l.foldl (fun s index =>
          if !boundary index && onShell dy dz index then (index : ℤ) else s) acc).toNat <
          size ∧
        boundary (l.foldl (fun s index =>
          if !boundary index && onShell dy dz index then (index : ℤ) else s) acc).toNat =
          false ∧
        onShell dy dz (l.foldl (fun s index =>
          if !boundary index && onShell dy dz index then (index : ℤ) else s) acc).toNat =
          true)) := by
  intro l
  induction l with
  | nil => intro acc hl hacc; exact hacc
  | cons x xs ih =>
    intro acc hl hacc
    rw [List.foldl_cons]
    apply ih
    · intro y hy; exact hl y (List.mem_cons_of_mem x hy)
    · split_ifs with hc
      · rw [Bool.and_eq_true, Bool.not_eq_true'] at hc
        refine Or.inr ⟨Int.natCast_nonneg x, ?_, ?_, ?_⟩
        · rw [Int.toNat_natCast]; exact hl x (List.mem_cons_self x xs)
        · rw [Int.toNat_natCast]; exact hc.1
        · rw [Int.toNat_natCast]; exact hc.2
      · exact hacc

theorem floodSeedScan_cases (boundary : ℕ → Bool) (dy dz size : ℕ) :
    floodSeedScan boundary dy dz size = -1 ∨
    (0 ≤ floodSeedScan boundary dy dz size ∧
     (floodSeedScan boundary dy dz size).toNat < size ∧
     boundary (floodSeedScan boundary dy dz size).toNat = false ∧
     onShell dy dz (floodSeedScan boundary dy dz size).toNat = true) := by
  rw [floodSeedScan]
  exact foldSeed_invariant boundary dy dz size (List.range size) (-1)
    (fun x hx => List.mem_range.mp hx) (Or.inl rfl)

theorem meshClassStage_readTag (boundary : ℕ → Bool) (box : AABB) (R : ℕ) (v : ℕ)
    (hv : v < gridSize (grid_dims box R)) :
    readTag (meshClassStage boundary box R) v =
      (if boundary v then VoxelTag.VOXEL_BOUNDARY else VoxelTag.VOXEL_UNKNOWN) :=
  readTag_map_range _ _ v hv

theorem meshFloodStage_changes (boundary : ℕ → Bool) (box : AABB) (R : ℕ) :
    ∀ v, readTag (meshFloodStage boundary box R) v ≠
        readTag (meshClassStage boundary box R) v →
      readTag (meshClassStage boundary box R) v = VoxelTag.VOXEL_UNKNOWN ∧
      readTag (meshFloodStage boundary box R) v = VoxelTag.VOXEL_OUTSIDE := by
  intro v hne
  rw [meshFloodStage] at hne ⊢
  split_ifs at hne ⊢ with hpos
  swap
  · exact absurd rfl hne
  rcases floodSeedScan_cases boundary (grid_dims box R).2.1.toNat
      (grid_dims box R).2.2.toNat (gridSize (grid_dims box R)) with hneg | hvalid
  · rw [meshSeed, hneg] at hpos
    exact absurd hpos (by decide)
  obtain ⟨hge, hlt, hbseed, hshell⟩ := hvalid
  have hlt2 : (meshSeed boundary box R).toNat < gridSize (grid_dims box R) := hlt
  have hbseed2 : boundary (meshSeed boundary box R).toNat = false := hbseed
  have hclasslen : (meshClassStage boundary box R).length = gridSize (grid_dims box R) := by
    rw [meshClassStage, classifyMeshTags_length]
  have hseedlt : (meshSeed boundary box R).toNat < (meshClassStage boundary box R).length := by
    omega
  rw [floodFill] at hne ⊢
  have hmono := fun w => floodLoop_tag_mono (grid_dims box R).1.toNat
    (grid_dims box R).2.1.toNat (grid_dims box R).2.2.toNat
    ((meshClassStage boundary box R).length + 1)
    ⟨(meshClassStage boundary box R).set (meshSeed boundary box R).toNat
      VoxelTag.VOXEL_OUTSIDE, [(meshSeed boundary box R).toNat]⟩ w
  by_cases hveq : v = (meshSeed boundary box R).toNat
  · rw [hveq]
    have hclassU : readTag (meshClassStage boundary box R)
        (meshSeed boundary box R).toNat = VoxelTag.VOXEL_UNKNOWN := by
      rw [meshClassStage_readTag boundary box R _ hlt2, hbseed2]
      rfl
    have hst0 : readTag ((meshClassStage boundary box R).set
        (meshSeed boundary box R).toNat VoxelTag.VOXEL_OUTSIDE)
        (meshSeed boundary box R).toNat = VoxelTag.VOXEL_OUTSIDE :=
      readTag_set_self _ hseedlt
    refine ⟨hclassU, ?_⟩
    rcases hmono (meshSeed boundary box R).toNat with h | ⟨_, h⟩
    · have h2 : readTag (floodLoop (grid_dims box R).1.toNat (grid_dims box R).2.1.toNat
          (grid_dims box R).2.2.toNat ((meshClassStage boundary box R).length + 1)
          ⟨(meshClassStage boundary box R).set (meshSeed boundary box R).toNat
            VoxelTag.VOXEL_OUTSIDE, [(meshSeed boundary box R).toNat]⟩).vox
          (meshSeed boundary box R).toNat =
          readTag ((meshClassStage boundary box R).set (meshSeed boundary box R).toNat
            VoxelTag.VOXEL_OUTSIDE) (meshSeed boundary box R).toNat := h
      exact h2.trans hst0
    · exact h
  · have hst0 : readTag ((meshClassStage boundary box R).set
        (meshSeed boundary box R).toNat VoxelTag.VOXEL_OUTSIDE) v =
        readTag (meshClassStage boundary box R) v := readTag_set_ne _ hveq
    rcases hmono v with h | ⟨hU, hO⟩
    · exfalso
      apply hne
      have h2 : readTag (floodLoop (grid_dims box R).1.toNat (grid_dims box R).2.1.toNat
          (grid_dims box R).2.2.toNat ((meshClassStage boundary box R).length + 1)
          ⟨(meshClassStage boundary box R).set (meshSeed boundary box R).toNat
            VoxelTag.VOXEL_OUTSIDE, [(meshSeed boundary box R).toNat]⟩).vox v =
          readTag ((meshClassStage boundary box R).set (meshSeed boundary box R).toNat
            VoxelTag.VOXEL_OUTSIDE) v := h
      rw [h2, hst0]
    · have hU2 : readTag ((meshClassStage boundary box R).set
          (meshSeed boundary box R).toNat VoxelTag.VOXEL_OUTSIDE) v =
          VoxelTag.VOXEL_UNKNOWN := hU
      rw [hst0] at hU2
      exact ⟨hU2, hO⟩

/-- Claim C9: the later passes have a frame property: the flood stage only ever
promotes `VOXEL_UNKNOWN` to `VOXEL_OUTSIDE`, the residual pass only ever
promotes `VOXEL_UNKNOWN` to `VOXEL_INSIDE`; every `VOXEL_BOUNDARY` voxel of the
classification pass, and every `VOXEL_OUTSIDE` voxel of the flood stage, keeps
its tag to the end; and the bounding volume, edge length and dimensions fixed
by the grid geometry are left untouched by the later passes. -/
theorem later_passes_frame (boundary : ℕ → Bool) (box : AABB) (R : ℕ) :
    (voxelize_mesh boundary box R).bbox = box ∧
    (voxelize_mesh boundary box R).len = grid_len box R ∧
    (voxelize_mesh boundary box R).dim = grid_dims box R ∧
    (∀ v, readTag (meshFloodStage boundary box R) v ≠
        readTag (meshClassStage boundary box R) v →
      readTag (meshClassStage boundary box R) v = VoxelTag.VOXEL_UNKNOWN ∧
      readTag (meshFloodStage boundary box R) v = VoxelTag.VOXEL_OUTSIDE) ∧
    (∀ v, readTag (voxelize_mesh boundary box R).voxels v ≠
        readTag (meshFloodStage boundary box R) v →
      readTag (meshFloodStage boundary box R) v = VoxelTag.VOXEL_UNKNOWN ∧
      readTag (voxelize_mesh boundary box R).voxels v = VoxelTag.VOXEL_INSIDE) ∧
    (∀ v, readTag (meshClassStage boundary box R) v = VoxelTag.VOXEL_BOUNDARY →
      readTag (voxelize_mesh boundary box R).voxels v = VoxelTag.VOXEL_BOUNDARY) ∧
    (∀ v, readTag (meshFloodStage boundary box R) v = VoxelTag.VOXEL_OUTSIDE →
      readTag (voxelize_mesh boundary box R).voxels v = VoxelTag.VOXEL_OUTSIDE) := by
  refine ⟨rfl, rfl, rfl, meshFloodStage_changes boundary box R, ?_, ?_, ?_⟩
  · intro v hne
    replace hne : readTag (residualPass (meshFloodStage boundary box R)) v ≠
      readTag (meshFloodStage boundary box R) v := hne
    rw [residualPass_readTag] at hne
    split_ifs at hne with hu
    · refine ⟨hu, ?_⟩
      show readTag (residualPass (meshFloodStage boundary box R)) v = _
      rw [residualPass_readTag, if_pos hu]
    · exact absurd rfl hne
  · intro v hB
    have hflood : readTag (meshFloodStage boundary box R) v = VoxelTag.VOXEL_BOUNDARY := by
      by_cases hch : readTag (meshFloodStage boundary box R) v =
          readTag (meshClassStage boundary box R) v
      · rw [hch]; exact hB
      · obtain ⟨hU, _⟩ := meshFloodStage_changes boundary box R v hch
        rw [hB] at hU
        exact absurd hU (by decide)
    show readTag (residualPass (meshFloodStage boundary box R)) v = _
    rw [residualPass_readTag, if_neg (by rw [hflood]; decide), hflood]
  · intro v hO
    show readTag (residualPass (meshFloodStage boundary box R)) v = _
    rw [residualPass_readTag, if_neg (by rw [hO]; decide), hO]

/-! ## Claim C10: hexahedra to general polyhedra -/

theorem keyIdx_length (ks : List (List ℕ)) : ∀ o, (keyIdx ks o).length = ks.length := by
  induction ks with
  | nil => intro o; rfl
  | cons k ks ih => intro o; simp [keyIdx, ih]

theorem keyIdx_append (ks : List (List ℕ)) (k : List ℕ) :
    ∀ o, keyIdx (ks ++ [k]) o = keyIdx ks o ++ [(k, o + ks.length)] := by
  induction ks with
  | nil => intro o; simp [keyIdx]
  | cons a as ih =>
    intro o
    show keyIdx (a :: (as ++ [k])) o = _
    rw [keyIdx, ih (o + 1), keyIdx]
    simp only [List.cons_append, List.length_cons]
    have : o + 1 + as.length = o + (as.length + 1) := by omega
    rw [this]

theorem lookupFace_keyIdx_eq_none (ks : List (List ℕ)) :
    ∀ o key, lookupFace (keyIdx ks o) key = none → key ∉ ks := by
  induction ks with
  | nil => intro o key _ h; simp at h
  | cons k ks ih =>
    intro o key hl hmem
    rw [keyIdx, lookupFace] at hl
    rcases List.mem_cons.mp hmem with he | hm
    · subst he
      rw [List.find?_cons_of_pos _ (by simp)] at hl
      simp at hl
    · by_cases hk : k = key
      · subst hk
        rw [List.find?_cons_of_pos _ (by simp)] at hl
        simp at hl
      · rw [List.find?_cons_of_neg _ (by simp [hk])] at hl
        exact ih (o + 1) key hl hm

theorem lookupFace_keyIdx_some (ks : List (List ℕ)) :
    ∀ o key i, lookupFace (keyIdx ks o) key = some i →
      ∃ j, i = o + j ∧ j < ks.length ∧ ks.getD j [] = key := by
  induction ks with
  | nil => intro o key i h; simp [keyIdx, lookupFace] at h
  | cons k ks ih =>
    intro o key i h
    rw [keyIdx, lookupFace] at h
    by_cases hk : k = key
    · subst hk
      rw [List.find?_cons_of_pos _ (by simp)] at h
      simp at h
      refine ⟨0, by omega, by simp, rfl⟩
    · rw [List.find?_cons_of_neg _ (by simp [hk])] at h
      obtain ⟨j, hj1, hj2, hj3⟩ := ih (o + 1) key i h
      refine ⟨j + 1, by omega, by simp only [List.length_cons]; omega, by simpa using hj3⟩

theorem scanKeys_append_keys (ks1 ks2 : List (List ℕ)) :
    ∀ seen, scanKeys seen (ks1 ++ ks2) = scanKeys (scanKeys seen ks1) ks2 := by
  induction ks1 with
  | nil => intro seen; rfl
  | cons k ks ih =>
    intro seen
    show scanKeys seen (k :: (ks ++ ks2)) = _
    rw [scanKeys, scanKeys, ih]

theorem scanKeys_prefix (ks : List (List ℕ)) :
    ∀ seen, ∃ ext, scanKeys seen ks = seen ++ ext := by
  induction ks with
  | nil => intro seen; exact ⟨[], by simp [scanKeys]⟩
  | cons k ks ih =>
    intro seen
    rw [scanKeys]
    split_ifs with h
    · exact ih seen
    · obtain ⟨ext, hext⟩ := ih (seen ++ [k])
      exact ⟨[k] ++ ext, by rw [hext]; simp⟩

theorem scanKeys_nodup (ks : List (List ℕ)) :
    ∀ seen : List (List ℕ), seen.Nodup → (scanKeys seen ks).Nodup := by
  induction ks with
  | nil => intro seen h; exact h
  | cons k ks ih =>
    intro seen h
    rw [scanKeys]
    split_ifs with hmem
    · exact ih seen h
    · refine ih (seen ++ [k]) (List.Nodup.append h (List.nodup_singleton k) ?_)
      intro a ha hak
      rw [List.mem_singleton] at hak
      subst hak
      exact hmem ha

theorem scanKeys_mem_seen (ks : List (List ℕ)) :
    ∀ seen k, k ∈ seen → k ∈ scanKeys seen ks := by
  intro seen k hk
  obtain ⟨ext, hext⟩ := scanKeys_prefix ks seen
  rw [hext]
  exact List.mem_append_left ext hk

theorem scanKeys_mem (ks : List (List ℕ)) :
    ∀ seen k, k ∈ ks → k ∈ scanKeys seen ks := by
  induction ks with
  | nil => intro seen k h; simp at h
  | cons a as ih =>
    intro seen k hk
    rw [scanKeys]
    rcases List.mem_cons.mp hk with he | hm
    · subst he
      split_ifs with h
      · exact scanKeys_mem_seen as seen k h
      · exact scanKeys_mem_seen as _ k (List.mem_append_right seen (List.mem_singleton.mpr rfl))
    · split_ifs with h
      · exact ih seen k hm
      · exact ih (seen ++ [a]) k hm

theorem firstFlags_append (ks1 ks2 : List (List ℕ)) :
    ∀ seen, firstFlags seen (ks1 ++ ks2) =
      firstFlags seen ks1 ++ firstFlags (scanKeys seen ks1) ks2 := by
  induction ks1 with
  | nil => intro seen; rfl
  | cons k ks ih =>
    intro seen
    show firstFlags seen (k :: (ks ++ ks2)) = _
    rw [firstFlags, firstFlags, scanKeys, ih]
    rfl

theorem hexFaceStep_none (hexa : List ℕ) (base : ℕ) (m : List (List ℕ × ℕ))
    (faces : List (List ℕ)) (pf : List ℕ) (pw : List Bool) (row : List ℕ)
    (h : lookupFace m (sortTuple (hexFaceTuple hexa base row)) = none) :
    hexFaceStep hexa base (m, faces, pf, pw) row =
      (m ++ [(sortTuple (hexFaceTuple hexa base row), m.length)],
       faces ++ [hexFaceTuple hexa base row], pf ++ [m.length], pw ++ [true]) := by
  simp only [hexFaceStep, h]

theorem hexFaceStep_some (hexa : List ℕ) (base : ℕ) (m : List (List ℕ × ℕ))
    (faces : List (List ℕ)) (pf : List ℕ) (pw : List Bool) (row : List ℕ) (id : ℕ)
    (h : lookupFace m (sortTuple (hexFaceTuple hexa base row)) = some id) :
    hexFaceStep hexa base (m, faces, pf, pw) row = (m, faces, pf ++ [id], pw ++ [false]) := by
  simp only [hexFaceStep, h]

theorem hexFaceFold_spec (hexa : List ℕ) (base : ℕ) (rows : List (List ℕ)) :
    ∀ (m : List (List ℕ × ℕ)) (faces : List (List ℕ)) (pf : List ℕ) (pw : List Bool),
      FMapInv m faces → (∀ id ∈ pf, id < faces.length) →
      FMapInv (rows.foldl (hexFaceStep hexa base) (m, faces, pf, pw)).1
          (rows.foldl (hexFaceStep hexa base) (m, faces, pf, pw)).2.1 ∧
      (∃ ext, (rows.foldl (hexFaceStep hexa base) (m, faces, pf, pw)).2.1 = faces ++ ext) ∧
      ((rows.foldl (hexFaceStep hexa base) (m, faces, pf, pw)).2.1.map sortTuple =
        scanKeys (faces.map sortTuple)
          ((rows.map (hexFaceTuple hexa base)).map sortTuple)) ∧
      ((rows.foldl (hexFaceStep hexa base) (m, faces, pf, pw)).2.2.2 =
        pw ++ firstFlags (faces.map sortTuple)
          ((rows.map (hexFaceTuple hexa base)).map sortTuple)) ∧
      ((rows.foldl (hexFaceStep hexa base) (m, faces, pf, pw)).2.2.1.length =
        pf.length + rows.length) ∧
      ((rows.foldl (hexFaceStep hexa base) (m, faces, pf, pw)).2.2.2.length =
        pw.length + rows.length) ∧
      (∀ id ∈ (rows.foldl (hexFaceStep hexa base) (m, faces, pf, pw)).2.2.1,
        id < (rows.foldl (hexFaceStep hexa base) (m, faces, pf, pw)).2.1.length) := by
  induction rows with
  | nil =>
    intro m faces pf pw hinv hpf
    simp only [List.foldl_nil, List.map_nil]
    exact ⟨hinv, ⟨[], by simp⟩, rfl, by simp [firstFlags], by simp, by simp, hpf⟩
  | cons row rows ih =>
    intro m faces pf pw hinv hpf
    obtain ⟨hm, hnodup⟩ := hinv
    have hmlen : m.length = faces.length := by rw [hm, keyIdx_length, List.length_map]
    rw [List.foldl_cons]
    cases hl : lookupFace m (sortTuple (hexFaceTuple hexa base row)) with
    | none =>
      rw [hexFaceStep_none hexa base m faces pf pw row hl]
      have hnotmem : sortTuple (hexFaceTuple hexa base row) ∉ faces.map sortTuple := by
        apply lookupFace_keyIdx_eq_none (faces.map sortTuple) 0
        rw [← hm]; exact hl
      have hinv2 : FMapInv (m ++ [(sortTuple (hexFaceTuple hexa base row), m.length)])
          (faces ++ [hexFaceTuple hexa base row]) := by
        constructor
        · rw [List.map_append, List.map_singleton, keyIdx_append, ← hm]
          have he : (0 : ℕ) + (faces.map sortTuple).length = m.length := by
            rw [List.length_map]; omega
          rw [he]
        · rw [List.map_append, List.map_singleton]
          refine List.Nodup.append hnodup (List.nodup_singleton _) ?_
          intro a ha hak
          rw [List.mem_singleton] at hak
          subst hak
          exact hnotmem ha
      have hpf2 : ∀ id ∈ pf ++ [m.length],
          id < (faces ++ [hexFaceTuple hexa base row]).length := by
        intro id hid
        rw [List.length_append, List.length_singleton]
        rcases List.mem_append.mp hid with hidp | hide
        · have := hpf id hidp; omega
        · rw [List.mem_singleton] at hide; omega
      obtain ⟨A, ⟨ext, hext⟩, B, C, D1, D2, E⟩ := ih _ _ _ _ hinv2 hpf2
      refine ⟨A, ⟨[hexFaceTuple hexa base row] ++ ext, by rw [hext]; simp⟩, ?_, ?_, ?_, ?_, E⟩
      · rw [List.map_cons, List.map_cons, scanKeys, if_neg hnotmem, B, List.map_append,
          List.map_singleton]
      · rw [C, List.map_cons, List.map_cons, firstFlags, if_neg hnotmem]
        have hdec : decide (sortTuple (hexFaceTuple hexa base row) ∉
            faces.map sortTuple) = true := by simp [hnotmem]
        rw [hdec, List.map_append, List.map_singleton]
        simp
      · rw [D1]; simp; omega
      · rw [D2]; simp; omega
    | some id =>
      rw [hexFaceStep_some hexa base m faces pf pw row id hl]
      obtain ⟨j, hj1, hj2, hj3⟩ := lookupFace_keyIdx_some (faces.map sortTuple) 0 _ id
        (by rw [← hm]; exact hl)
      have hjlen : j < faces.length := by
        rw [List.length_map] at hj2; exact hj2
      have hidlt : id < faces.length := by omega
      have hmem : sortTuple (hexFaceTuple hexa base row) ∈ faces.map sortTuple := by
        rw [← hj3, List.getD_eq_getElem?_getD, List.getElem?_eq_getElem hj2]
        exact List.getElem_mem hj2
      have hpf2 : ∀ x ∈ pf ++ [id], x < faces.length := by
        intro x hx
        rcases List.mem_append.mp hx with hxp | hxe
        · exact hpf x hxp
        · rw [List.mem_singleton] at hxe; omega
      obtain ⟨A, hpre, B, C, D1, D2, E⟩ := ih _ _ _ _ ⟨hm, hnodup⟩ hpf2
      refine ⟨A, hpre, ?_, ?_, ?_, ?_, E⟩
      · rw [List.map_cons, List.map_cons, scanKeys, if_pos hmem, B]
      · rw [C, List.map_cons, List.map_cons, firstFlags, if_pos hmem]
        have hdec : decide (sortTuple (hexFaceTuple hexa base row) ∉
            faces.map sortTuple) = false := by simp [hmem]
        rw [hdec]
        simp
      · rw [D1]; simp; omega
      · rw [D2]; simp; omega

theorem hexTuples_succ (hexa : List ℕ) (n : ℕ) :
    hexTuples hexa (n + 1) =
      hexTuples hexa n ++ HEXA_FACES.map (hexFaceTuple hexa (n * 8)) := by
  rw [hexTuples, hexTuples, List.range_succ, List.flatMap_append]
  simp

theorem hexStep_spec (hexa : List ℕ) (n : ℕ) (st : HexOut)
    (A : FMapInv st.f_map st.faces)
    (B : st.faces.map sortTuple = scanKeys [] ((hexTuples hexa n).map sortTuple))
    (P1 : st.polys.length = n) (P2 : st.polys_face_winding.length = n)
    (L6p : ∀ p ∈ st.polys, p.length = 6)
    (L6w : ∀ w ∈ st.polys_face_winding, w.length = 6)
    (FF : st.polys_face_winding.flatten =
      firstFlags [] ((hexTuples hexa n).map sortTuple))
    (BND : ∀ p ∈ st.polys, ∀ id ∈ p, id < st.faces.length) :
    FMapInv (hexStep hexa st n).f_map (hexStep hexa st n).faces ∧
    (hexStep hexa st n).faces.map sortTuple =
      scanKeys [] ((hexTuples hexa (n + 1)).map sortTuple) ∧
    (hexStep hexa st n).polys.length = n + 1 ∧
    (hexStep hexa st n).polys_face_winding.length = n + 1 ∧
    (∀ p ∈ (hexStep hexa st n).polys, p.length = 6) ∧
    (∀ w ∈ (hexStep hexa st n).polys_face_winding, w.length = 6) ∧
    (hexStep hexa st n).polys_face_winding.flatten =
      firstFlags [] ((hexTuples hexa (n + 1)).map sortTuple) ∧
    (∀ p ∈ (hexStep hexa st n).polys, ∀ id ∈ p,
      id < (hexStep hexa st n).faces.length) := by
  obtain ⟨A2, ⟨ext, hext⟩, B2, C2, D1, D2, E2⟩ :=
    hexFaceFold_spec hexa (n * 8) HEXA_FACES st.f_map st.faces [] [] A (by simp)
  refine ⟨A2, ?_, ?_, ?_, ?_, ?_, ?_, ?_⟩
  · show (HEXA_FACES.foldl (hexFaceStep hexa (n * 8))
      (st.f_map, st.faces, [], [])).2.1.map sortTuple = _
    rw [hexTuples_succ, List.map_append, scanKeys_append_keys, ← B]
    exact B2
  · show (st.polys ++ [(HEXA_FACES.foldl (hexFaceStep hexa (n * 8))
      (st.f_map, st.faces, [], [])).2.2.1]).length = n + 1
    rw [List.length_append, List.length_singleton, P1]
  · show (st.polys_face_winding ++ [(HEXA_FACES.foldl (hexFaceStep hexa (n * 8))
      (st.f_map, st.faces, [], [])).2.2.2]).length = n + 1
    rw [List.length_append, List.length_singleton, P2]
  · intro p hp
    replace hp : p ∈ st.polys ++ [(HEXA_FACES.foldl (hexFaceStep hexa (n * 8))
      (st.f_map, st.faces, [], [])).2.2.1] := hp
    rcases List.mem_append.mp hp with hold | hnew
    · exact L6p p hold
    · rw [List.mem_singleton] at hnew
      subst hnew
      rw [D1]
      rfl
  · intro w hw
    replace hw : w ∈ st.polys_face_winding ++
      [(HEXA_FACES.foldl (hexFaceStep hexa (n * 8)) (st.f_map, st.faces, [], [])).2.2.2] := hw
    rcases List.mem_append.mp hw with hold | hnew
    · exact L6w w hold
    · rw [List.mem_singleton] at hnew
      subst hnew
      rw [D2]
      rfl
  · show (st.polys_face_winding ++ [(HEXA_FACES.foldl (hexFaceStep hexa (n * 8))
      (st.f_map, st.faces, [], [])).2.2.2]).flatten = _
    rw [List.flatten_append, FF, hexTuples_succ, List.map_append, firstFlags_append, ← B,
      C2]
    simp
  · intro p hp id hid
    replace hp : p ∈ st.polys ++ [(HEXA_FACES.foldl (hexFaceStep hexa (n * 8))
      (st.f_map, st.faces, [], [])).2.2.1] := hp
    show id < (HEXA_FACES.foldl (hexFaceStep hexa (n * 8))
      (st.f_map, st.faces, [], [])).2.1.length
    rcases List.mem_append.mp hp with hold | hnew
    · have := BND p hold id hid
      rw [hext, List.length_append]
      omega
    · rw [List.mem_singleton] at hnew
      subst hnew
      exact E2 id hid

theorem fromHexaLoop_spec (hexa : List ℕ) : ∀ n : ℕ,
    FMapInv ((List.range n).foldl (hexStep hexa) ⟨[], [], [], []⟩).f_map
        ((List.range n).foldl (hexStep hexa) ⟨[], [], [], []⟩).faces ∧
    ((List.range n).foldl (hexStep hexa) ⟨[], [], [], []⟩).faces.map sortTuple =
      scanKeys [] ((hexTuples hexa n).map sortTuple) ∧
    ((List.range n).foldl (hexStep hexa) ⟨[], [], [], []⟩).polys.length = n ∧
    ((List.range n).foldl (hexStep hexa) ⟨[], [], [], []⟩).polys_face_winding.length = n ∧
    (∀ p ∈ ((List.range n).foldl (hexStep hexa) ⟨[], [], [], []⟩).polys, p.length = 6) ∧
    (∀ w ∈ ((List.range n).foldl (hexStep hexa) ⟨[], [], [], []⟩).polys_face_winding,
      w.length = 6) ∧
    ((List.range n).foldl (hexStep hexa) ⟨[], [], [], []⟩).polys_face_winding.flatten =
      firstFlags [] ((hexTuples hexa n).map sortTuple) ∧
    (∀ p ∈ ((List.range n).foldl (hexStep hexa) ⟨[], [], [], []⟩).polys, ∀ id ∈ p,
      id < ((List.range n).foldl (hexStep hexa) ⟨[], [], [], []⟩).faces.length) := by
  intro n
  induction n with
  | zero =>
    exact ⟨⟨rfl, by simp⟩, rfl, rfl, rfl, by simp, by simp, rfl, by simp⟩
  | succ n ih =>
    obtain ⟨A, B, P1, P2, L6p, L6w, FF, BND⟩ := ih
    rw [List.range_succ, List.foldl_append, List.foldl_cons, List.foldl_nil]
    exact hexStep_spec hexa n _ A B P1 P2 L6p L6w FF BND

/-- Claim C10 counterexample: on the degenerate hexahedron `[0,…,0]` all six
face slots of polyhedron 0 carry the same face id 0, and polyhedron 0 is the
first (and only) polyhedron to introduce that face, yet only the first slot's
winding flag is `true` — the claim as written demands `true` on all six
slots. -/
theorem winding_claim_cex :
    ¬ windingClaim (from_hexahedra_to_general_polyhedra [0, 0, 0, 0, 0, 0, 0, 0]) := by
  intro hcl
  have h1 : 0 < (from_hexahedra_to_general_polyhedra [0, 0, 0, 0, 0, 0, 0, 0]).polys.length := by
    decide
  have h2 := hcl 0 h1 1 (by decide)
  have h3 := h2.mpr fun h2x hh2 => absurd hh2 (Nat.not_lt_zero h2x)
  have h4 : (((from_hexahedra_to_general_polyhedra
      [0, 0, 0, 0, 0, 0, 0, 0]).polys_face_winding.getD 0 []).getD 1 false) = false := by
    decide
  rw [h3] at h4
  exact absurd h4 (by decide)

/-- Claim C10 (winding sentence amended to first occurrence per slot): for every
`hexa` whose length is a multiple of 8, the output has `hexa.length/8`
polyhedra of exactly 6 face slots each, each distinct face (keyed by its
sorted 4-tuple) is stored exactly once in `faces` and every encountered face
key is stored, every face id in `polys` indexes into `faces`, and the winding
flag of a slot is `true` exactly when that slot (in processing order:
hexahedra in input order, 6 faces each) is the first occurrence of its face
key. -/
theorem from_hexahedra_spec (hexa : List ℕ) (hmul : hexa.length % 8 = 0) :
    (from_hexahedra_to_general_polyhedra hexa).polys.length = hexa.length / 8 ∧
    (∀ p ∈ (from_hexahedra_to_general_polyhedra hexa).polys, p.length = 6) ∧
    (∀ w ∈ (from_hexahedra_to_general_polyhedra hexa).polys_face_winding, w.length = 6) ∧
    ((from_hexahedra_to_general_polyhedra hexa).faces.map sortTuple).Nodup ∧
    (∀ t ∈ allFaceTuples hexa,
      sortTuple t ∈ (from_hexahedra_to_general_polyhedra hexa).faces.map sortTuple) ∧
    (∀ p ∈ (from_hexahedra_to_general_polyhedra hexa).polys, ∀ id ∈ p,
      id < (from_hexahedra_to_general_polyhedra hexa).faces.length) ∧
    (from_hexahedra_to_general_polyhedra hexa).polys_face_winding.flatten =
      firstFlags [] ((allFaceTuples hexa).map sortTuple) := by
  obtain ⟨A, B, P1, P2, L6p, L6w, FF, BND⟩ := fromHexaLoop_spec hexa (hexa.length / 8)
  refine ⟨P1, L6p, L6w, ?_, ?_, BND, FF⟩
  · show (((List.range (hexa.length / 8)).foldl (hexStep hexa)
      ⟨[], [], [], []⟩).faces.map sortTuple).Nodup
    rw [B]
    exact scanKeys_nodup _ [] List.nodup_nil
  · intro t ht
    show sortTuple t ∈ ((List.range (hexa.length / 8)).foldl (hexStep hexa)
      ⟨[], [], [], []⟩).faces.map sortTuple
    rw [B]
    exact scanKeys_mem _ [] _ (List.mem_map_of_mem sortTuple ht)

/-- Witness for `from_hexahedra_spec` on a single hexahedron. -/
theorem from_hexahedra_spec_witness :
    ([0, 1, 2, 3, 4, 5, 6, 7] : List ℕ).length % 8 = 0 ∧
    (from_hexahedra_to_general_polyhedra [0, 1, 2, 3, 4, 5, 6, 7]).polys.length = 1 :=
  ⟨by decide, (from_hexahedra_spec [0, 1, 2, 3, 4, 5, 6, 7] (by decide)).1⟩

end Cinolib
